import Mathlib

/-!
Verification of the validation / enrichment / deduplication core of the
cambridge-events-api repository (src/src/utils/deduplicator.py,
src/src/utils/validator.py, src/src/models/event.py).

Python text is embedded shallowly: strings are Lean `String`s, naive civil
date-times are integers counting seconds from an (arbitrary) midnight-aligned
epoch, `Optional` fields are `Option`, and the wall clock consulted by the
validator is passed in as an explicit `now` parameter.
-/

set_option maxRecDepth 100000
set_option maxHeartbeats 1600000

namespace CambridgeEvents

/-- Length of the longest common prefix of two character lists. -/
def commonPrefixLen : List Char → List Char → Nat
  | a :: as, b :: bs => if a = b then commonPrefixLen as bs + 1 else 0
  | _, _ => 0

/-- All suffixes of a list, each tagged with its start index, the first one
tagged `n`.  Used to enumerate candidate match positions. -/
def suffixesFrom : Nat → List Char → List (Nat × List Char)
  | n, [] => [(n, [])]
  | n, c :: cs => (n, c :: cs) :: suffixesFrom (n + 1) cs

/-- All triples `(i, j, k)` where `k` is the length of the longest common
run of `a` starting at `i` and `b` starting at `j`, enumerated with `i`
outermost and `j` innermost, both ascending. -/
def pairScan (a b : List Char) : List (Nat × Nat × Nat) :=
  (suffixesFrom 0 a).flatMap fun p =>
    (suffixesFrom 0 b).map fun q => (p.1, q.1, commonPrefixLen p.2 q.2)

/-- Keep the strictly larger candidate; ties keep the earlier one.  Scanning
`pairScan` in order with this step selects, among the maximal matching
blocks, the one starting earliest in `a` and then earliest in `b` — the
selection rule of `difflib.SequenceMatcher.find_longest_match`. -/
def better (cur cand : Nat × Nat × Nat) : Nat × Nat × Nat :=
  if cur.2.2 < cand.2.2 then cand else cur

/-- Accumulator-strict scan with the `better` step (destructuring the
accumulator keeps evaluation inside the kernel shallow); `bestLoop_eq_foldl`
identifies it with the plain fold. -/
def bestLoop : List (Nat × Nat × Nat) → Nat × Nat × Nat → Nat × Nat × Nat
  | [], acc => acc
  | t :: ts, (ci, cj, ck) =>
    if ck < t.2.2 then bestLoop ts t else bestLoop ts (ci, cj, ck)

theorem bestLoop_eq_foldl :
    ∀ (l : List (Nat × Nat × Nat)) (acc : Nat × Nat × Nat),
      bestLoop l acc = l.foldl better acc := by
  intro l
  induction l with
  | nil => intro acc; rfl
  | cons t ts ih =>
    intro acc
    obtain ⟨ci, cj, ck⟩ := acc
    show (if ck < t.2.2 then bestLoop ts t else bestLoop ts (ci, cj, ck)) = _
    rw [List.foldl_cons]
    unfold better
    split
    · exact ih t
    · exact ih (ci, cj, ck)

/-- Longest matching block of `a` and `b`, as `(i, j, size)`, with the
earliest-in-`a`-then-earliest-in-`b` tie break of difflib (no junk;
autojunk never fires below 200 characters, and every string compared by
this repository is capped below that by the pydantic model). -/
def bestMatch (a b : List Char) : Nat × Nat × Nat :=
  bestLoop (pairScan a b) (0, 0, 0)

theorem foldl_invariant {α β : Type} (f : β → α → β) (P : β → Prop)
    (l : List α) (b : β) (hb : P b)
    (hf : ∀ st x, x ∈ l → P st → P (f st x)) : P (l.foldl f b) := by
  induction l generalizing b with
  | nil => exact hb
  | cons x xs ih =>
    exact ih (f b x) (hf b x (by simp) hb)
      (fun st y hy hst => hf st y (by simp [hy]) hst)

theorem suffixesFrom_mem {l : List Char} :
    ∀ {n : Nat} {p : Nat × List Char}, p ∈ suffixesFrom n l →
      ∃ d, d ≤ l.length ∧ p = (n + d, l.drop d) := by
  induction l with
  | nil =>
    intro n p hp
    simp [suffixesFrom] at hp
    exact ⟨0, by simp, by simp [hp]⟩
  | cons c cs ih =>
    intro n p hp
    simp only [suffixesFrom, List.mem_cons] at hp
    rcases hp with h | h
    · exact ⟨0, by simp, by simp [h]⟩
    · obtain ⟨d, hd, hpd⟩ := ih h
      refine ⟨d + 1, by simpa using Nat.succ_le_succ hd, ?_⟩
      simp [hpd, List.drop_succ_cons]
      omega

theorem commonPrefixLen_ne_zero {xs ys : List Char}
    (h : commonPrefixLen xs ys ≠ 0) : xs ≠ [] := by
  cases xs with
  | nil => cases ys <;> simp [commonPrefixLen] at h
  | cons a as => simp

theorem pairScan_mem_bound {a b : List Char} {t : Nat × Nat × Nat}
    (ht : t ∈ pairScan a b) (hk : t.2.2 ≠ 0) : t.1 < a.length := by
  simp only [pairScan, List.mem_flatMap, List.mem_map] at ht
  obtain ⟨p, hp, q, hq, rfl⟩ := ht
  obtain ⟨d, hd, rfl⟩ := suffixesFrom_mem hp
  simp only at hk ⊢
  have hne : a.drop d ≠ [] := commonPrefixLen_ne_zero hk
  have : ¬ a.length ≤ d := fun hle => hne (List.drop_eq_nil_of_le hle)
  omega

theorem bestMatch_bound (a b : List Char)
    (h : (bestMatch a b).2.2 ≠ 0) : (bestMatch a b).1 < a.length := by
  unfold bestMatch at h ⊢
  rw [bestLoop_eq_foldl] at h ⊢
  have := foldl_invariant better
    (fun st => st.2.2 ≠ 0 → st.1 < a.length) (pairScan a b) (0, 0, 0)
    (by simp) ?step
  · exact this h
  · intro st x hx hst
    unfold better
    split
    · exact fun hk => pairScan_mem_bound hx hk
    · exact hst

/-- Fuel-indexed form of the matching-block recursion of
`difflib.SequenceMatcher.get_matching_blocks`: take the longest matching
block, then recurse on the pieces to its left and to its right.  The fuel
only serves structural termination; `matchTotal` supplies enough of it
(every recursive call strictly shrinks the first list, see
`matchTotalFuel_congr`), so the zero-fuel branch is unreachable. -/
def matchTotalFuel : Nat → List Char → List Char → Nat
  | 0, _, _ => 0
  | fuel + 1, a, b =>
    match bestMatch a b with
    | (i, j, k) =>
      if k = 0 then 0
      else
        matchTotalFuel fuel (a.take i) (b.take j) + k +
          matchTotalFuel fuel (a.drop (i + k)) (b.drop (j + k))

/-- Total size of the matching blocks of `difflib.SequenceMatcher` (the
queue-based loop in `get_matching_blocks` computes exactly the blocks of
this recursion; only their total size matters for `ratio`).  Its defining
recursion is `matchTotal_eq`. -/
def matchTotal (a b : List Char) : Nat :=
  matchTotalFuel (a.length + 1) a b

theorem matchTotalFuel_congr :
    ∀ (f1 : Nat) {f2 : Nat} (a b : List Char), a.length < f1 → a.length < f2 →
      matchTotalFuel f1 a b = matchTotalFuel f2 a b := by
  intro f1
  induction f1 with
  | zero => intro f2 a b h1 _; omega
  | succ n ih =>
    intro f2 a b h1 h2
    cases f2 with
    | zero => omega
    | succ m =>
      simp only [matchTotalFuel]
      cases hbm : bestMatch a b with
      | mk i jk =>
        cases jk with
        | mk j k =>
          by_cases hk : k = 0
          · simp [hk]
          · have hb := bestMatch_bound a b (by rw [hbm]; exact hk)
            rw [hbm] at hb
            simp only [hk, if_neg hk]
            have hta : (a.take i).length < n := by
              simp only [List.length_take]; omega
            have hda : (a.drop (i + k)).length < n := by
              simp only [List.length_drop]; omega
            have e1 := @ih m (a.take i) (b.take j) hta
              (by simp only [List.length_take]; omega)
            have e2 := @ih m (a.drop (i + k)) (b.drop (j + k)) hda
              (by simp only [List.length_drop]; omega)
            rw [e1, e2]

/-- The matching-block recursion satisfied by `matchTotal`. -/
theorem matchTotal_eq (a b : List Char) :
    matchTotal a b =
      match bestMatch a b with
      | (i, j, k) =>
        if k = 0 then 0
        else
          matchTotal (a.take i) (b.take j) + k +
            matchTotal (a.drop (i + k)) (b.drop (j + k)) := by
  unfold matchTotal
  conv_lhs => rw [matchTotalFuel]
  cases hbm : bestMatch a b with
  | mk i jk =>
    cases jk with
    | mk j k =>
      by_cases hk : k = 0
      · simp [hk]
      · have hb := bestMatch_bound a b (by rw [hbm]; exact hk)
        rw [hbm] at hb
        simp only [if_neg hk]
        have e1 := @matchTotalFuel_congr a.length ((a.take i).length + 1)
          (a.take i) (b.take j) (by simp only [List.length_take]; omega) (by omega)
        have e2 := @matchTotalFuel_congr a.length ((a.drop (i + k)).length + 1)
          (a.drop (i + k)) (b.drop (j + k))
          (by simp only [List.length_drop]; omega) (by omega)
        rw [e1, e2]

/-- Numerator `2*M` of `difflib.SequenceMatcher.ratio()`. -/
def ratioNum (s1 s2 : String) : Nat := 2 * matchTotal s1.toList s2.toList

/-- Denominator `len(s1) + len(s2)` of `difflib.SequenceMatcher.ratio()`. -/
def ratioDen (s1 s2 : String) : Nat := s1.toList.length + s2.toList.length

/-- Embedding of `difflib.SequenceMatcher(None, s1, s2).ratio()`:
`2*M / (len(s1)+len(s2))`, and `1.0` when both strings are empty. -/
def ratio (s1 s2 : String) : ℚ :=
  if ratioDen s1 s2 = 0 then 1 else (ratioNum s1 s2 : ℚ) / (ratioDen s1 s2 : ℚ)

/-- Embedding of `EventDeduplicator.text_similarity` (deduplicator.py:74). -/
def text_similarity (t1 t2 : String) : ℚ := ratio t1 t2

theorem matchTotal_nil_nil : matchTotal [] [] = 0 := by decide

/-- Comparing the exact ratio against a rational threshold `p/q` is the
integer cross-multiplication test; the executable duplicate check below
uses the right-hand side, the specification statements the left. -/
theorem ratio_lt_iff (s1 s2 : String) (p q : Nat) (hq : 0 < q) (hpq : p < q) :
    (ratio s1 s2 < (p : ℚ) / (q : ℚ)) ↔
      q * ratioNum s1 s2 < p * ratioDen s1 s2 := by
  unfold ratio
  by_cases hd : ratioDen s1 s2 = 0
  · have hnum : ratioNum s1 s2 = 0 := by
      unfold ratioNum
      unfold ratioDen at hd
      have h1 : s1.toList = [] := by
        have := Nat.eq_zero_of_add_eq_zero_right hd
        exact List.length_eq_zero.mp (by omega)
      have h2 : s2.toList = [] := by
        exact List.length_eq_zero.mp (by omega)
      rw [h1, h2, matchTotal_nil_nil]
    rw [if_pos hd, hnum, hd]
    simp only [Nat.mul_zero, Nat.lt_irrefl, iff_false, not_lt]
    rw [div_le_one (by exact_mod_cast hq)]
    exact_mod_cast Nat.le_of_lt hpq
  · rw [if_neg hd]
    rw [div_lt_div_iff₀ (by exact_mod_cast Nat.pos_of_ne_zero hd)
      (by exact_mod_cast hq)]
    rw [mul_comm ((ratioNum s1 s2 : ℚ)) ((q : ℚ))]
    exact_mod_cast Iff.rfl

/-- Embedding of the `EventCategory` enumeration (models/event.py:8). -/
inductive EventCategory where
  | music
  | arts_culture
  | food_drink
  | theater
  | lectures
  | sports
  | community
  | other
deriving DecidableEq

/-- Embedding of the `EventCreate` pydantic model (models/event.py:64).
Naive civil date-times are integers counting seconds from a midnight-aligned
epoch (Python datetimes carry no leap seconds, so the civil timeline is
order- and difference-isomorphic to the integers, and `.hour` becomes
`t % 86400 / 3600`).  Latitude and longitude are exact rationals standing
for the Python floats; `tags` is a finite set because the code rebuilds the
tag list as `list(set(...))`, whose order is unspecified.
Modelled from the spec: the shipped models/event.py lacks the derived
boolean family-friendly flag that validator.py:99 writes and spec section 3
declares ("a derived boolean family-friendly flag (computed, not
scraper-supplied)"); it is included here as `family_friendly`. -/
structure EventCreate where
  title : String
  description : String
  start_datetime : Int
  end_datetime : Option Int := none
  all_day : Bool := false
  venue_name : Option String := none
  street_address : Option String := none
  city : Option String := none
  state : Option String := none
  zip_code : Option String := none
  latitude : Option ℚ := none
  longitude : Option ℚ := none
  category : Option EventCategory := none
  tags : Finset String := ∅
  age_restrictions : Option String := none
  cost : Option String := none
  registration_required : Bool := false
  source_url : String := ""
  source_name : String := ""
  contact_email : Option String := none
  contact_phone : Option String := none
  website_url : Option String := none
  image_url : Option String := none
  recurring_pattern : Option String := none
  family_friendly : Bool := false
deriving DecidableEq

/-- Python truthiness of an optional string: `None` and `""` are falsy. -/
def truthyStr : Option String → Bool
  | none => false
  | some s => s ≠ ""

/-- Python truthiness of an optional float: `None` and `0.0` are falsy. -/
def truthyNum : Option ℚ → Bool
  | none => false
  | some q => q ≠ 0

/-- Python truthiness of an optional category: only `None` is falsy (every
member of the string enum has a non-empty value). -/
def truthyCat (o : Option EventCategory) : Bool := o.isSome

/-- Embedding of Python `str.lower()` (ASCII case folding), written over
the character list so that it evaluates inside the kernel. -/
def lowerStr (s : String) : String := ⟨s.data.map Char.toLower⟩

/-- Embedding of `EventDeduplicator.are_duplicates` (deduplicator.py:40):
title-similarity gate, then start-time proximity, then the venue gate that
only applies when both venue names are truthy.  The float comparisons
`similarity < 0.85` and `similarity < 0.7` are the exact integer
cross-multiplication tests (see `ratio_lt_iff`). -/
def are_duplicates (event1 event2 : EventCreate) : Bool :=
  if 20 * ratioNum (lowerStr event1.title) (lowerStr event2.title) <
      17 * ratioDen (lowerStr event1.title) (lowerStr event2.title) then false
  else if 3600 < (event1.start_datetime - event2.start_datetime).natAbs then false
  else if truthyStr event1.venue_name ∧ truthyStr event2.venue_name then
    if 10 * ratioNum (lowerStr (event1.venue_name.getD ""))
          (lowerStr (event2.venue_name.getD "")) <
        7 * ratioDen (lowerStr (event1.venue_name.getD ""))
          (lowerStr (event2.venue_name.getD "")) then false
    else true
  else true

/-- A candidate carries a venue name when the field is neither absent nor
the empty string (the spec phrase "lacks a venue name" covers both). -/
def carriesVenue (e : EventCreate) : Prop :=
  e.venue_name ≠ none ∧ e.venue_name ≠ some ""

/-- Restatement of claim C1 in the spec vocabulary: all applicable checks
pass — Ratcliff/Obershelp similarity of case-folded titles at least 0.85,
start times within 3600 seconds, and, when both candidates carry a venue
name, similarity of case-folded venue names at least 0.70. -/
def are_duplicates_spec (e1 e2 : EventCreate) : Prop :=
  (0.85 : ℚ) ≤ text_similarity (lowerStr e1.title) (lowerStr e2.title) ∧
  (e1.start_datetime - e2.start_datetime).natAbs ≤ 3600 ∧
  (carriesVenue e1 → carriesVenue e2 →
    (0.70 : ℚ) ≤ text_similarity (lowerStr (e1.venue_name.getD ""))
      (lowerStr (e2.venue_name.getD "")))

theorem carriesVenue_iff_truthy (e : EventCreate) :
    carriesVenue e ↔ truthyStr e.venue_name = true := by
  unfold carriesVenue truthyStr
  cases h : e.venue_name with
  | none => simp
  | some s => simp [decide_eq_true_iff]

theorem sim_ge_85_iff (s1 s2 : String) :
    (0.85 : ℚ) ≤ text_similarity s1 s2 ↔
      ¬ (20 * ratioNum s1 s2 < 17 * ratioDen s1 s2) := by
  rw [← not_lt]
  have h : text_similarity s1 s2 < (0.85 : ℚ) ↔
      20 * ratioNum s1 s2 < 17 * ratioDen s1 s2 := by
    have := ratio_lt_iff s1 s2 17 20 (by norm_num) (by norm_num)
    unfold text_similarity
    rw [← this]
    norm_num
  rw [h]

theorem sim_ge_70_iff (s1 s2 : String) :
    (0.70 : ℚ) ≤ text_similarity s1 s2 ↔
      ¬ (10 * ratioNum s1 s2 < 7 * ratioDen s1 s2) := by
  rw [← not_lt]
  have h : text_similarity s1 s2 < (0.70 : ℚ) ↔
      10 * ratioNum s1 s2 < 7 * ratioDen s1 s2 := by
    have := ratio_lt_iff s1 s2 7 10 (by norm_num) (by norm_num)
    unfold text_similarity
    rw [← this]
    norm_num
  rw [h]

/-- Claim C1: `are_duplicates` returns true exactly when all applicable
checks pass — title similarity of case-folded titles at least 0.85, start
times at most 3600 seconds apart, and, when both candidates carry a venue
name, venue-name similarity at least 0.70; a candidate lacking a venue
name skips the venue check without disqualifying the pair. -/
theorem are_duplicates_correct (e1 e2 : EventCreate) :
    are_duplicates e1 e2 = true ↔ are_duplicates_spec e1 e2 := by
  unfold are_duplicates are_duplicates_spec
  simp only [carriesVenue_iff_truthy, sim_ge_85_iff, sim_ge_70_iff]
  split_ifs with h1 h2 h3 h4
  · simp only [Bool.false_eq_true, false_iff]
    intro hsp
    exact hsp.1 h1
  · simp only [Bool.false_eq_true, false_iff]
    intro hsp
    exact absurd hsp.2.1 (by omega)
  · simp only [Bool.false_eq_true, false_iff]
    intro hsp
    exact hsp.2.2 h3.1 h3.2 h4
  · simp only [true_iff]
    exact ⟨h1, by omega, fun _ _ => h4⟩
  · simp only [true_iff]
    exact ⟨h1, by omega, fun hv1 hv2 => absurd ⟨hv1, hv2⟩ h3⟩

/-- Merge step of `EventDeduplicator.merge_duplicates` for one subsequent
group member (the body of the loop at deduplicator.py:94): longer
description wins, string/number/category fields fill only when the
accumulator's field is falsy, latitude and longitude move as a pair gated
on latitude, tag sets union. -/
def mergeOne (merged event : EventCreate) : EventCreate :=
  let m1 := if merged.description.length < event.description.length then
      { merged with description := event.description } else merged
  let m2 := if truthyStr event.venue_name ∧ ¬ truthyStr m1.venue_name then
      { m1 with venue_name := event.venue_name } else m1
  let m3 := if truthyStr event.street_address ∧ ¬ truthyStr m2.street_address then
      { m2 with street_address := event.street_address } else m2
  let m4 := if truthyNum event.latitude ∧ ¬ truthyNum m3.latitude then
      { m3 with latitude := event.latitude, longitude := event.longitude } else m3
  let m5 := if truthyCat event.category ∧ ¬ truthyCat m4.category then
      { m4 with category := event.category } else m4
  let m6 := { m5 with tags := m5.tags ∪ event.tags }
  let m7 := if truthyStr event.contact_email ∧ ¬ truthyStr m6.contact_email then
      { m6 with contact_email := event.contact_email } else m6
  let m8 := if truthyStr event.contact_phone ∧ ¬ truthyStr m7.contact_phone then
      { m7 with contact_phone := event.contact_phone } else m7
  let m9 := if truthyStr event.website_url ∧ ¬ truthyStr m8.website_url then
      { m8 with website_url := event.website_url } else m8
  if truthyStr event.image_url ∧ ¬ truthyStr m9.image_url then
      { m9 with image_url := event.image_url } else m9

/-- Folding `mergeOne` over the subsequent members, the base first. -/
def mergeFold (base : EventCreate) (rest : List EventCreate) : EventCreate :=
  rest.foldl mergeOne base

/-- Embedding of `EventDeduplicator.merge_duplicates` (deduplicator.py:79):
the empty list raises `ValueError("Cannot merge empty list")`, a singleton
is returned unchanged, and otherwise the first event is the base of the
merge fold.  -/
def merge_duplicates : List EventCreate → Except String EventCreate
  | [] => .error "Cannot merge empty list"
  | [e] => .ok e
  | e :: rest => .ok (mergeFold e rest)

theorem merge_duplicates_cons (e : EventCreate) (rest : List EventCreate) :
    merge_duplicates (e :: rest) = .ok (mergeFold e rest) := by
  cases rest with
  | nil => rfl
  | cons f fs => rfl

/-- Pydantic-free default used only to totalize list indexing; every index
the deduplicator produces is in range, so it is never consulted. -/
def defaultEvent : EventCreate :=
  { title := "", description := "", start_datetime := 0 }

def getE (events : List EventCreate) (i : Nat) : EventCreate :=
  events.getD i defaultEvent

/-- Inner `for j in range(i+1, len(events))` loop of
`EventDeduplicator.find_duplicates` (deduplicator.py:26): returns the
indices appended to the current duplicate group and the updated processed
set. -/
def innerScan (x : EventCreate) (events : List EventCreate) :
    List Nat → List Nat → List Nat × List Nat
  | [], processed => ([], processed)
  | j :: js, processed =>
    if j ∈ processed then innerScan x events js processed
    else if are_duplicates x (getE events j) then
      let r := innerScan x events js (j :: processed)
      (j :: r.1, r.2)
    else innerScan x events js processed

/-- Outer `for i, event1 in enumerate(events)` loop of
`EventDeduplicator.find_duplicates` (deduplicator.py:20), carried state
`(duplicate_groups, processed_indices)`. -/
def fdLoop (events : List EventCreate) :
    List Nat → List (List Nat) × List Nat → List (List Nat) × List Nat
  | [], st => st
  | i :: is, (groups, processed) =>
    if i ∈ processed then fdLoop events is (groups, processed)
    else
      let r := innerScan (getE events i) events
        (List.range' (i + 1) (events.length - (i + 1))) processed
      if r.1 = [] then fdLoop events is (groups, r.2)
      else fdLoop events is (groups ++ [i :: r.1], i :: r.2)

/-- Embedding of `EventDeduplicator.find_duplicates` (deduplicator.py:11). -/
def find_duplicates (events : List EventCreate) : List (List Nat) :=
  (fdLoop events (List.range events.length) ([], [])).1

/-- Merging one duplicate group by indices.  Every group produced by
`find_duplicates` is non-empty, so this equals `merge_duplicates` on the
group's events (`merge_duplicates_cons`); the empty case is unreachable. -/
def mergeGroup (events : List EventCreate) : List Nat → EventCreate
  | [] => defaultEvent
  | i :: ms => mergeFold (getE events i) (ms.map (getE events))

/-- Embedding of `EventDeduplicator.deduplicate_events` (deduplicator.py:133):
merged representatives of the duplicate groups, in group order, followed by
the unprocessed candidates, in input order. -/
def deduplicate_events (events : List EventCreate) : List EventCreate :=
  if events.isEmpty then []
  else
    (find_duplicates events).map (mergeGroup events) ++
      ((List.range events.length).filter
        (fun i => decide (i ∉ (find_duplicates events).flatten))).map (getE events)

/-- Claim C10: `merge_duplicates` raises `ValueError` on the empty list and
returns a singleton list's element unchanged. -/
theorem merge_duplicates_empty_and_singleton :
    merge_duplicates [] = Except.error "Cannot merge empty list" ∧
      ∀ e : EventCreate, merge_duplicates [e] = Except.ok e :=
  ⟨rfl, fun _ => rfl⟩

theorem mergeOne_title (m e : EventCreate) : (mergeOne m e).title = m.title := by
  unfold mergeOne
  simp only [apply_ite EventCreate.title, ite_self]

theorem mergeOne_start (m e : EventCreate) :
    (mergeOne m e).start_datetime = m.start_datetime := by
  unfold mergeOne
  simp only [apply_ite EventCreate.start_datetime, ite_self]

theorem mergeOne_end (m e : EventCreate) :
    (mergeOne m e).end_datetime = m.end_datetime := by
  unfold mergeOne
  simp only [apply_ite EventCreate.end_datetime, ite_self]

theorem mergeOne_all_day (m e : EventCreate) : (mergeOne m e).all_day = m.all_day := by
  unfold mergeOne
  simp only [apply_ite EventCreate.all_day, ite_self]

theorem mergeOne_city (m e : EventCreate) : (mergeOne m e).city = m.city := by
  unfold mergeOne
  simp only [apply_ite EventCreate.city, ite_self]

theorem mergeOne_state (m e : EventCreate) : (mergeOne m e).state = m.state := by
  unfold mergeOne
  simp only [apply_ite EventCreate.state, ite_self]

theorem mergeOne_zip (m e : EventCreate) : (mergeOne m e).zip_code = m.zip_code := by
  unfold mergeOne
  simp only [apply_ite EventCreate.zip_code, ite_self]

theorem mergeOne_age (m e : EventCreate) :
    (mergeOne m e).age_restrictions = m.age_restrictions := by
  unfold mergeOne
  simp only [apply_ite EventCreate.age_restrictions, ite_self]

theorem mergeOne_cost (m e : EventCreate) : (mergeOne m e).cost = m.cost := by
  unfold mergeOne
  simp only [apply_ite EventCreate.cost, ite_self]

theorem mergeOne_reg (m e : EventCreate) :
    (mergeOne m e).registration_required = m.registration_required := by
  unfold mergeOne
  simp only [apply_ite EventCreate.registration_required, ite_self]

theorem mergeOne_source_url (m e : EventCreate) :
    (mergeOne m e).source_url = m.source_url := by
  unfold mergeOne
  simp only [apply_ite EventCreate.source_url, ite_self]

theorem mergeOne_source_name (m e : EventCreate) :
    (mergeOne m e).source_name = m.source_name := by
  unfold mergeOne
  simp only [apply_ite EventCreate.source_name, ite_self]

theorem mergeOne_recurring (m e : EventCreate) :
    (mergeOne m e).recurring_pattern = m.recurring_pattern := by
  unfold mergeOne
  simp only [apply_ite EventCreate.recurring_pattern, ite_self]

theorem mergeOne_family (m e : EventCreate) :
    (mergeOne m e).family_friendly = m.family_friendly := by
  unfold mergeOne
  simp only [apply_ite EventCreate.family_friendly, ite_self]

theorem mergeOne_description (m e : EventCreate) :
    (mergeOne m e).description =
      if m.description.length < e.description.length then e.description
      else m.description := by
  unfold mergeOne
  simp only [apply_ite EventCreate.description, ite_self]

theorem mergeOne_venue (m e : EventCreate) :
    (mergeOne m e).venue_name =
      if truthyStr e.venue_name ∧ ¬ truthyStr m.venue_name then e.venue_name
      else m.venue_name := by
  unfold mergeOne
  simp only [apply_ite EventCreate.venue_name, ite_self]

theorem mergeOne_street (m e : EventCreate) :
    (mergeOne m e).street_address =
      if truthyStr e.street_address ∧ ¬ truthyStr m.street_address then e.street_address
      else m.street_address := by
  unfold mergeOne
  simp only [apply_ite EventCreate.street_address, apply_ite EventCreate.venue_name,
    ite_self]

theorem mergeOne_latitude (m e : EventCreate) :
    (mergeOne m e).latitude =
      if truthyNum e.latitude ∧ ¬ truthyNum m.latitude then e.latitude
      else m.latitude := by
  unfold mergeOne
  simp only [apply_ite EventCreate.latitude, ite_self]

theorem mergeOne_longitude (m e : EventCreate) :
    (mergeOne m e).longitude =
      if truthyNum e.latitude ∧ ¬ truthyNum m.latitude then e.longitude
      else m.longitude := by
  unfold mergeOne
  simp only [apply_ite EventCreate.longitude, apply_ite EventCreate.latitude, ite_self]

theorem mergeOne_category (m e : EventCreate) :
    (mergeOne m e).category =
      if truthyCat e.category ∧ ¬ truthyCat m.category then e.category
      else m.category := by
  unfold mergeOne
  simp only [apply_ite EventCreate.category, ite_self]

theorem mergeOne_email (m e : EventCreate) :
    (mergeOne m e).contact_email =
      if truthyStr e.contact_email ∧ ¬ truthyStr m.contact_email then e.contact_email
      else m.contact_email := by
  unfold mergeOne
  simp only [apply_ite EventCreate.contact_email, ite_self]

theorem mergeOne_phone (m e : EventCreate) :
    (mergeOne m e).contact_phone =
      if truthyStr e.contact_phone ∧ ¬ truthyStr m.contact_phone then e.contact_phone
      else m.contact_phone := by
  unfold mergeOne
  simp only [apply_ite EventCreate.contact_phone, ite_self]

theorem mergeOne_website (m e : EventCreate) :
    (mergeOne m e).website_url =
      if truthyStr e.website_url ∧ ¬ truthyStr m.website_url then e.website_url
      else m.website_url := by
  unfold mergeOne
  simp only [apply_ite EventCreate.website_url, ite_self]

theorem mergeOne_image (m e : EventCreate) :
    (mergeOne m e).image_url =
      if truthyStr e.image_url ∧ ¬ truthyStr m.image_url then e.image_url
      else m.image_url := by
  unfold mergeOne
  simp only [apply_ite EventCreate.image_url, ite_self]

theorem mergeOne_tags (m e : EventCreate) :
    (mergeOne m e).tags = m.tags ∪ e.tags := by
  unfold mergeOne
  simp only [apply_ite EventCreate.tags, ite_self]

/-- First-non-empty-wins selection in the spec vocabulary: keep the base
value when it is truthy, otherwise the first truthy value of the scan, and
the base value when there is none. -/
def fillFirstStr (b : Option String) (l : List (Option String)) : Option String :=
  if truthyStr b then b else (l.find? truthyStr).getD b

def fillFirstCat (b : Option EventCategory) (l : List (Option EventCategory)) :
    Option EventCategory :=
  if truthyCat b then b else (l.find? truthyCat).getD b

/-- Longer-description-wins scan in the spec vocabulary: replace the
accumulator exactly when the scanned description is strictly longer. -/
def descFold (b : String) (l : List String) : String :=
  l.foldl (fun d d2 => if d.length < d2.length then d2 else d) b

/-- Latitude/longitude move as a pair, gated on the latitude coordinate. -/
def pairFill (b : Option ℚ × Option ℚ) (l : List (Option ℚ × Option ℚ)) :
    Option ℚ × Option ℚ :=
  if truthyNum b.1 then b else (l.find? (fun p => truthyNum p.1)).getD b

theorem mergeFold_cons (b e : EventCreate) (r : List EventCreate) :
    mergeFold b (e :: r) = mergeFold (mergeOne b e) r := rfl

theorem mergeFold_title (b : EventCreate) (rest : List EventCreate) :
    (mergeFold b rest).title = b.title := by
  induction rest generalizing b with
  | nil => rfl
  | cons e r ih => rw [mergeFold_cons, ih, mergeOne_title]

theorem mergeFold_start (b : EventCreate) (rest : List EventCreate) :
    (mergeFold b rest).start_datetime = b.start_datetime := by
  induction rest generalizing b with
  | nil => rfl
  | cons e r ih => rw [mergeFold_cons, ih, mergeOne_start]

theorem mergeFold_end (b : EventCreate) (rest : List EventCreate) :
    (mergeFold b rest).end_datetime = b.end_datetime := by
  induction rest generalizing b with
  | nil => rfl
  | cons e r ih => rw [mergeFold_cons, ih, mergeOne_end]

theorem mergeFold_all_day (b : EventCreate) (rest : List EventCreate) :
    (mergeFold b rest).all_day = b.all_day := by
  induction rest generalizing b with
  | nil => rfl
  | cons e r ih => rw [mergeFold_cons, ih, mergeOne_all_day]

theorem mergeFold_city (b : EventCreate) (rest : List EventCreate) :
    (mergeFold b rest).city = b.city := by
  induction rest generalizing b with
  | nil => rfl
  | cons e r ih => rw [mergeFold_cons, ih, mergeOne_city]

theorem mergeFold_state (b : EventCreate) (rest : List EventCreate) :
    (mergeFold b rest).state = b.state := by
  induction rest generalizing b with
  | nil => rfl
  | cons e r ih => rw [mergeFold_cons, ih, mergeOne_state]

theorem mergeFold_zip (b : EventCreate) (rest : List EventCreate) :
    (mergeFold b rest).zip_code = b.zip_code := by
  induction rest generalizing b with
  | nil => rfl
  | cons e r ih => rw [mergeFold_cons, ih, mergeOne_zip]

theorem mergeFold_age (b : EventCreate) (rest : List EventCreate) :
    (mergeFold b rest).age_restrictions = b.age_restrictions := by
  induction rest generalizing b with
  | nil => rfl
  | cons e r ih => rw [mergeFold_cons, ih, mergeOne_age]

theorem mergeFold_cost (b : EventCreate) (rest : List EventCreate) :
    (mergeFold b rest).cost = b.cost := by
  induction rest generalizing b with
  | nil => rfl
  | cons e r ih => rw [mergeFold_cons, ih, mergeOne_cost]

theorem mergeFold_reg (b : EventCreate) (rest : List EventCreate) :
    (mergeFold b rest).registration_required = b.registration_required := by
  induction rest generalizing b with
  | nil => rfl
  | cons e r ih => rw [mergeFold_cons, ih, mergeOne_reg]

theorem mergeFold_source_url (b : EventCreate) (rest : List EventCreate) :
    (mergeFold b rest).source_url = b.source_url := by
  induction rest generalizing b with
  | nil => rfl
  | cons e r ih => rw [mergeFold_cons, ih, mergeOne_source_url]

theorem mergeFold_source_name (b : EventCreate) (rest : List EventCreate) :
    (mergeFold b rest).source_name = b.source_name := by
  induction rest generalizing b with
  | nil => rfl
  | cons e r ih => rw [mergeFold_cons, ih, mergeOne_source_name]

theorem mergeFold_recurring (b : EventCreate) (rest : List EventCreate) :
    (mergeFold b rest).recurring_pattern = b.recurring_pattern := by
  induction rest generalizing b with
  | nil => rfl
  | cons e r ih => rw [mergeFold_cons, ih, mergeOne_recurring]

theorem mergeFold_family (b : EventCreate) (rest : List EventCreate) :
    (mergeFold b rest).family_friendly = b.family_friendly := by
  induction rest generalizing b with
  | nil => rfl
  | cons e r ih => rw [mergeFold_cons, ih, mergeOne_family]

theorem mergeFold_description (b : EventCreate) (rest : List EventCreate) :
    (mergeFold b rest).description =
      descFold b.description (rest.map EventCreate.description) := by
  induction rest generalizing b with
  | nil => rfl
  | cons e r ih =>
    rw [mergeFold_cons, ih, mergeOne_description]
    rfl

theorem mergeFold_description_le (b : EventCreate) (rest : List EventCreate) :
    b.description.length ≤ (mergeFold b rest).description.length := by
  induction rest generalizing b with
  | nil => exact Nat.le_refl _
  | cons e r ih =>
    rw [mergeFold_cons]
    refine Nat.le_trans ?_ (ih (mergeOne b e))
    rw [mergeOne_description]
    split_ifs with h
    · omega
    · exact Nat.le_refl _

theorem fillFirstStr_cons (b x : Option String) (l : List (Option String)) :
    fillFirstStr b (x :: l) =
      if truthyStr b then b
      else if truthyStr x then x
      else fillFirstStr b l := by
  unfold fillFirstStr
  by_cases hb : truthyStr b
  · simp [hb]
  · by_cases hx : truthyStr x
    · simp [hb, hx, List.find?_cons_of_pos]
    · simp [hb, hx, List.find?_cons_of_neg]

theorem mergeFold_venue (b : EventCreate) (rest : List EventCreate) :
    (mergeFold b rest).venue_name =
      fillFirstStr b.venue_name (rest.map EventCreate.venue_name) := by
  induction rest generalizing b with
  | nil => simp [fillFirstStr, mergeFold]
  | cons e r ih =>
    rw [mergeFold_cons, ih, mergeOne_venue, List.map_cons, fillFirstStr_cons]
    by_cases hb : truthyStr b.venue_name
    · simp [fillFirstStr, hb]
    · by_cases he : truthyStr e.venue_name
      · simp [fillFirstStr, hb, he]
      · simp [hb, he]

theorem mergeFold_street (b : EventCreate) (rest : List EventCreate) :
    (mergeFold b rest).street_address =
      fillFirstStr b.street_address (rest.map EventCreate.street_address) := by
  induction rest generalizing b with
  | nil => simp [fillFirstStr, mergeFold]
  | cons e r ih =>
    rw [mergeFold_cons, ih, mergeOne_street, List.map_cons, fillFirstStr_cons]
    by_cases hb : truthyStr b.street_address
    · simp [fillFirstStr, hb]
    · by_cases he : truthyStr e.street_address
      · simp [fillFirstStr, hb, he]
      · simp [hb, he]

theorem mergeFold_email (b : EventCreate) (rest : List EventCreate) :
    (mergeFold b rest).contact_email =
      fillFirstStr b.contact_email (rest.map EventCreate.contact_email) := by
  induction rest generalizing b with
  | nil => simp [fillFirstStr, mergeFold]
  | cons e r ih =>
    rw [mergeFold_cons, ih, mergeOne_email, List.map_cons, fillFirstStr_cons]
    by_cases hb : truthyStr b.contact_email
    · simp [fillFirstStr, hb]
    · by_cases he : truthyStr e.contact_email
      · simp [fillFirstStr, hb, he]
      · simp [hb, he]

theorem mergeFold_phone (b : EventCreate) (rest : List EventCreate) :
    (mergeFold b rest).contact_phone =
      fillFirstStr b.contact_phone (rest.map EventCreate.contact_phone) := by
  induction rest generalizing b with
  | nil => simp [fillFirstStr, mergeFold]
  | cons e r ih =>
    rw [mergeFold_cons, ih, mergeOne_phone, List.map_cons, fillFirstStr_cons]
    by_cases hb : truthyStr b.contact_phone
    · simp [fillFirstStr, hb]
    · by_cases he : truthyStr e.contact_phone
      · simp [fillFirstStr, hb, he]
      · simp [hb, he]

theorem mergeFold_website (b : EventCreate) (rest : List EventCreate) :
    (mergeFold b rest).website_url =
      fillFirstStr b.website_url (rest.map EventCreate.website_url) := by
  induction rest generalizing b with
  | nil => simp [fillFirstStr, mergeFold]
  | cons e r ih =>
    rw [mergeFold_cons, ih, mergeOne_website, List.map_cons, fillFirstStr_cons]
    by_cases hb : truthyStr b.website_url
    · simp [fillFirstStr, hb]
    · by_cases he : truthyStr e.website_url
      · simp [fillFirstStr, hb, he]
      · simp [hb, he]

theorem mergeFold_image (b : EventCreate) (rest : List EventCreate) :
    (mergeFold b rest).image_url =
      fillFirstStr b.image_url (rest.map EventCreate.image_url) := by
  induction rest generalizing b with
  | nil => simp [fillFirstStr, mergeFold]
  | cons e r ih =>
    rw [mergeFold_cons, ih, mergeOne_image, List.map_cons, fillFirstStr_cons]
    by_cases hb : truthyStr b.image_url
    · simp [fillFirstStr, hb]
    · by_cases he : truthyStr e.image_url
      · simp [fillFirstStr, hb, he]
      · simp [hb, he]

theorem fillFirstCat_cons (b x : Option EventCategory) (l : List (Option EventCategory)) :
    fillFirstCat b (x :: l) =
      if truthyCat b then b
      else if truthyCat x then x
      else fillFirstCat b l := by
  unfold fillFirstCat
  by_cases hb : truthyCat b
  · simp [hb]
  · by_cases hx : truthyCat x
    · simp [hb, hx, List.find?_cons_of_pos]
    · simp [hb, hx, List.find?_cons_of_neg]

theorem mergeFold_category (b : EventCreate) (rest : List EventCreate) :
    (mergeFold b rest).category =
      fillFirstCat b.category (rest.map EventCreate.category) := by
  induction rest generalizing b with
  | nil => simp [fillFirstCat, mergeFold]
  | cons e r ih =>
    rw [mergeFold_cons, ih, mergeOne_category, List.map_cons, fillFirstCat_cons]
    by_cases hb : truthyCat b.category
    · simp [fillFirstCat, hb]
    · by_cases he : truthyCat e.category
      · simp [fillFirstCat, hb, he]
      · simp [hb, he]

theorem pairFill_cons (b x : Option ℚ × Option ℚ) (l : List (Option ℚ × Option ℚ)) :
    pairFill b (x :: l) =
      if truthyNum b.1 then b
      else if truthyNum x.1 then x
      else pairFill b l := by
  unfold pairFill
  by_cases hb : truthyNum b.1
  · simp [hb]
  · by_cases hx : truthyNum x.1
    · simp [hb, hx, List.find?_cons_of_pos]
    · simp [hb, hx, List.find?_cons_of_neg]

theorem mergeFold_latlong (b : EventCreate) (rest : List EventCreate) :
    ((mergeFold b rest).latitude, (mergeFold b rest).longitude) =
      pairFill (b.latitude, b.longitude)
        (rest.map fun e => (e.latitude, e.longitude)) := by
  induction rest generalizing b with
  | nil => simp [pairFill, mergeFold]
  | cons e r ih =>
    rw [mergeFold_cons, ih, List.map_cons, pairFill_cons, mergeOne_latitude,
      mergeOne_longitude]
    by_cases hb : truthyNum b.latitude
    · simp [pairFill, hb]
    · by_cases he : truthyNum e.latitude
      · simp [pairFill, hb, he]
      · simp [hb, he]

theorem mergeFold_tags (b : EventCreate) (rest : List EventCreate) (t : String) :
    t ∈ (mergeFold b rest).tags ↔ t ∈ b.tags ∨ ∃ e ∈ rest, t ∈ e.tags := by
  induction rest generalizing b with
  | nil => simp [mergeFold]
  | cons e r ih =>
    rw [mergeFold_cons, ih]
    simp only [mergeOne_tags, Finset.mem_union, List.mem_cons]
    constructor
    · rintro ((h | h) | ⟨f, hf, ht⟩)
      · exact Or.inl h
      · exact Or.inr ⟨e, Or.inl rfl, h⟩
      · exact Or.inr ⟨f, Or.inr hf, ht⟩
    · rintro (h | ⟨f, hf | hf, ht⟩)
      · exact Or.inl (Or.inl h)
      · exact Or.inl (Or.inr (hf ▸ ht))
      · exact Or.inr ⟨f, hf, ht⟩

theorem innerScan_cons_skip (x : EventCreate) (E : List EventCreate)
    (j : Nat) (js P : List Nat) (hj : j ∈ P) :
    innerScan x E (j :: js) P = innerScan x E js P := by
  conv_lhs => unfold innerScan
  simp [hj]

theorem innerScan_cons_dup (x : EventCreate) (E : List EventCreate)
    (j : Nat) (js P : List Nat) (hj : j ∉ P)
    (hd : are_duplicates x (getE E j) = true) :
    innerScan x E (j :: js) P =
      (j :: (innerScan x E js (j :: P)).1, (innerScan x E js (j :: P)).2) := by
  conv_lhs => unfold innerScan
  simp [hj, hd]

theorem innerScan_cons_nodup (x : EventCreate) (E : List EventCreate)
    (j : Nat) (js P : List Nat) (hj : j ∉ P)
    (hd : are_duplicates x (getE E j) = false) :
    innerScan x E (j :: js) P = innerScan x E js P := by
  conv_lhs => unfold innerScan
  simp [hj, hd]

theorem innerScan_processed (x : EventCreate) (E : List EventCreate) :
    ∀ (js P : List Nat) (q : Nat),
      q ∈ (innerScan x E js P).2 ↔ q ∈ P ∨ q ∈ (innerScan x E js P).1 := by
  intro js
  induction js with
  | nil => intro P q; simp [innerScan]
  | cons j js ih =>
    intro P q
    unfold innerScan
    split_ifs with hj hd
    · rw [ih]
    · simp only
      rw [ih (j :: P) q]
      simp only [List.mem_cons]
      tauto
    · rw [ih]

theorem innerScan_mem (x : EventCreate) (E : List EventCreate) :
    ∀ (js P : List Nat),
      (∀ m ∈ (innerScan x E js P).1, m ∈ js ∧ m ∉ P) ∧
        (innerScan x E js P).1.Nodup := by
  intro js
  induction js with
  | nil => intro P; simp [innerScan]
  | cons j js ih =>
    intro P
    unfold innerScan
    split_ifs with hj hd
    · obtain ⟨h1, h2⟩ := ih P
      exact ⟨fun m hm => ⟨List.mem_cons_of_mem j (h1 m hm).1, (h1 m hm).2⟩, h2⟩
    · obtain ⟨h1, h2⟩ := ih (j :: P)
      simp only [List.mem_cons]
      constructor
      · rintro m (rfl | hm)
        · exact ⟨Or.inl rfl, hj⟩
        · obtain ⟨hmj, hmp⟩ := h1 m hm
          simp only [List.mem_cons] at hmp
          exact ⟨Or.inr hmj, fun hp => hmp (Or.inr hp)⟩
      · rw [List.nodup_cons]
        refine ⟨fun hjm => ?_, h2⟩
        have := (h1 j hjm).2
        simp at this
    · obtain ⟨h1, h2⟩ := ih P
      exact ⟨fun m hm => ⟨List.mem_cons_of_mem j (h1 m hm).1, (h1 m hm).2⟩, h2⟩

theorem innerScan_false (x : EventCreate) (E : List EventCreate) :
    ∀ (js P : List Nat) (q : Nat), q ∈ js → q ∉ (innerScan x E js P).2 →
      are_duplicates x (getE E q) = false := by
  intro js
  induction js with
  | nil => intro P q hq; simp at hq
  | cons j js ih =>
    intro P q hq hq2
    unfold innerScan at hq2
    rcases List.mem_cons.mp hq with rfl | hqs
    · split_ifs at hq2 with hj hd
      · exact absurd ((innerScan_processed x E js P q).mpr (Or.inl hj)) hq2
      · simp only at hq2
        have : q ∈ (innerScan x E js (q :: P)).2 :=
          (innerScan_processed x E js (q :: P) q).mpr (Or.inl (by simp))
        exact absurd this hq2
      · exact Bool.eq_false_iff.mpr hd
    · split_ifs at hq2 with hj hd
      · exact ih P q hqs hq2
      · exact ih (j :: P) q hqs hq2
      · exact ih P q hqs hq2

theorem innerScan_nil_processed (x : EventCreate) (E : List EventCreate) :
    ∀ (js P : List Nat), (innerScan x E js P).1 = [] →
      (innerScan x E js P).2 = P := by
  intro js
  induction js with
  | nil => intro P _; rfl
  | cons j js ih =>
    intro P h
    by_cases hj : j ∈ P
    · rw [innerScan_cons_skip x E j js P hj] at h ⊢
      exact ih P h
    · cases hd : are_duplicates x (getE E j) with
      | true =>
        rw [innerScan_cons_dup x E j js P hj hd] at h
        simp at h
      | false =>
        rw [innerScan_cons_nodup x E j js P hj hd] at h ⊢
        exact ih P h

/-- Anchor (first member) of every duplicate group. -/
def headsOf (G : List (List Nat)) : List Nat := G.map (fun g => g.headD 0)

theorem fdLoop_cons_skip (E : List EventCreate) (i : Nat) (is : List Nat)
    (G : List (List Nat)) (P : List Nat) (hi : i ∈ P) :
    fdLoop E (i :: is) (G, P) = fdLoop E is (G, P) := by
  conv_lhs => unfold fdLoop
  simp [hi]

theorem fdLoop_cons_none (E : List EventCreate) (i : Nat) (is : List Nat)
    (G : List (List Nat)) (P : List Nat) (hi : i ∉ P)
    (h : (innerScan (getE E i) E (List.range' (i + 1) (E.length - (i + 1))) P).1 = []) :
    fdLoop E (i :: is) (G, P) =
      fdLoop E is
        (G, (innerScan (getE E i) E (List.range' (i + 1) (E.length - (i + 1))) P).2) := by
  conv_lhs => unfold fdLoop
  simp [hi, h]

theorem fdLoop_cons_group (E : List EventCreate) (i : Nat) (is : List Nat)
    (G : List (List Nat)) (P : List Nat) (hi : i ∉ P)
    (h : (innerScan (getE E i) E (List.range' (i + 1) (E.length - (i + 1))) P).1 ≠ []) :
    fdLoop E (i :: is) (G, P) =
      fdLoop E is
        (G ++ [i :: (innerScan (getE E i) E (List.range' (i + 1) (E.length - (i + 1))) P).1],
          i :: (innerScan (getE E i) E (List.range' (i + 1) (E.length - (i + 1))) P).2) := by
  conv_lhs => unfold fdLoop
  simp [hi, h]

/-- Loop invariant of `find_duplicates` after all indices below `i0` have
been scanned, with accumulated groups `G` and processed set `P`:
well-formed groups anchored below `i0`, strictly increasing anchors, the
processed set is exactly the union of the groups, no index is in two
groups, and every already-decided pair of surviving indices (an index
that is unprocessed or is an anchor) is not a duplicate pair. -/
structure FDInv (E : List EventCreate) (i0 : Nat) (G : List (List Nat))
    (P : List Nat) : Prop where
  groups_wf : ∀ g ∈ G, ∃ a ms, g = a :: ms ∧ ms ≠ [] ∧ a < i0 ∧
    ∀ m ∈ ms, a < m ∧ m < E.length
  heads_sorted : List.Pairwise (· < ·) (headsOf G)
  proc_eq : ∀ x, x ∈ P ↔ x ∈ G.flatten
  flat_nodup : G.flatten.Nodup
  past : ∀ p, p < i0 → (p ∉ P ∨ p ∈ headsOf G) →
    ∀ q, p < q → q < E.length → (q ∉ P ∨ q ∈ headsOf G) →
      are_duplicates (getE E p) (getE E q) = false

theorem headsOf_lt {E : List EventCreate} {i0 : Nat} {G : List (List Nat)}
    {P : List Nat} (inv : FDInv E i0 G P) :
    ∀ h ∈ headsOf G, h < i0 := by
  intro h hh
  simp only [headsOf, List.mem_map] at hh
  obtain ⟨g, hg, rfl⟩ := hh
  obtain ⟨a, ms, rfl, _, ha, _⟩ := inv.groups_wf g hg
  simpa using ha

theorem heads_mem_flatten {G : List (List Nat)} {E : List EventCreate}
    {i0 : Nat} {P : List Nat} (inv : FDInv E i0 G P) :
    ∀ h ∈ headsOf G, h ∈ G.flatten := by
  intro h hh
  simp only [headsOf, List.mem_map] at hh
  obtain ⟨g, hg, rfl⟩ := hh
  obtain ⟨a, ms, rfl, _, _, _⟩ := inv.groups_wf g hg
  simp only [List.headD_cons]
  exact List.mem_flatten.mpr ⟨a :: ms, hg, by simp⟩

theorem fdLoop_inv (E : List EventCreate) :
    ∀ (k i0 : Nat) (G : List (List Nat)) (P : List Nat),
      i0 + k = E.length → FDInv E i0 G P →
      FDInv E E.length (fdLoop E (List.range' i0 k) (G, P)).1
        (fdLoop E (List.range' i0 k) (G, P)).2 := by
  intro k
  induction k with
  | zero =>
    intro i0 G P hik inv
    have : i0 = E.length := by omega
    subst this
    simpa [List.range', fdLoop] using inv
  | succ k ih =>
    intro i0 G P hik inv
    rw [List.range'_succ]
    have hi0n : i0 < E.length := by omega
    by_cases hi : i0 ∈ P
    · rw [fdLoop_cons_skip E i0 _ G P hi]
      refine ih (i0 + 1) G P (by omega) ?_
      refine ⟨fun g hg => ?_, inv.heads_sorted, inv.proc_eq, inv.flat_nodup, ?_⟩
      · obtain ⟨a, ms, h1, h2, h3, h4⟩ := inv.groups_wf g hg
        exact ⟨a, ms, h1, h2, by omega, h4⟩
      · intro p hp hcond q hpq hqn hqcond
        rcases Nat.lt_succ_iff_lt_or_eq.mp hp with hp | hp2
        · exact inv.past p hp hcond q hpq hqn hqcond
        · subst hp2
          rcases hcond with hc | hc
          · exact absurd hi hc
          · exact absurd (headsOf_lt inv p hc) (by omega)
    · by_cases hnil :
        (innerScan (getE E i0) E (List.range' (i0 + 1) (E.length - (i0 + 1))) P).1 = []
      · rw [fdLoop_cons_none E i0 _ G P hi hnil]
        rw [innerScan_nil_processed _ _ _ _ hnil]
        refine ih (i0 + 1) G P (by omega) ?_
        refine ⟨fun g hg => ?_, inv.heads_sorted, inv.proc_eq, inv.flat_nodup, ?_⟩
        · obtain ⟨a, ms, h1, h2, h3, h4⟩ := inv.groups_wf g hg
          exact ⟨a, ms, h1, h2, by omega, h4⟩
        · intro p hp hcond q hpq hqn hqcond
          rcases Nat.lt_succ_iff_lt_or_eq.mp hp with hp | hp2
          · exact inv.past p hp hcond q hpq hqn hqcond
          · subst hp2
            have hqP : q ∉ P := by
              rcases hqcond with hc | hc
              · exact hc
              · exact absurd (headsOf_lt inv q hc) (by omega)
            have hqjs : q ∈ List.range' (p + 1) (E.length - (p + 1)) := by
              rw [List.mem_range'_1]
              omega
            have hqr2 : q ∉ (innerScan (getE E p) E
                (List.range' (p + 1) (E.length - (p + 1))) P).2 := by
              rw [innerScan_nil_processed _ _ _ _ hnil]
              exact hqP
            exact innerScan_false (getE E p) E _ P q hqjs hqr2
      · rw [fdLoop_cons_group E i0 _ G P hi hnil]
        have isMem := innerScan_mem (getE E i0) E
          (List.range' (i0 + 1) (E.length - (i0 + 1))) P
        have isProc := innerScan_processed (getE E i0) E
          (List.range' (i0 + 1) (E.length - (i0 + 1))) P
        set r := innerScan (getE E i0) E
          (List.range' (i0 + 1) (E.length - (i0 + 1))) P
        have hmemr : ∀ m ∈ r.1, i0 < m ∧ m < E.length := by
          intro m hm
          have := (isMem.1 m hm).1
          rw [List.mem_range'_1] at this
          omega
        have hheads : headsOf (G ++ [i0 :: r.1]) = headsOf G ++ [i0] := by
          simp [headsOf]
        have hflat : (G ++ [i0 :: r.1]).flatten = G.flatten ++ (i0 :: r.1) := by
          simp
        refine ih (i0 + 1) (G ++ [i0 :: r.1]) (i0 :: r.2) (by omega) ?_
        refine ⟨?_, ?_, ?_, ?_, ?_⟩
        · intro g hg
          rcases List.mem_append.mp hg with hg | hg
          · obtain ⟨a, ms, h1, h2, h3, h4⟩ := inv.groups_wf g hg
            exact ⟨a, ms, h1, h2, by omega, h4⟩
          · simp only [List.mem_singleton] at hg
            exact ⟨i0, r.1, hg, hnil, by omega, hmemr⟩
        · rw [hheads]
          rw [List.pairwise_append]
          refine ⟨inv.heads_sorted, by simp, ?_⟩
          intro a ha b hb
          simp only [List.mem_singleton] at hb
          subst hb
          exact headsOf_lt inv a ha
        · intro x
          rw [hflat]
          simp only [List.mem_cons, List.mem_append]
          rw [isProc x, ← inv.proc_eq x]
          tauto
        · rw [hflat]
          rw [List.nodup_append]
          refine ⟨inv.flat_nodup, ?_, ?_⟩
          · rw [List.nodup_cons]
            refine ⟨fun hmem => ?_, isMem.2⟩
            exact absurd (hmemr i0 hmem).1 (by omega)
          · intro x hx
            have hxP : x ∈ P := (inv.proc_eq x).mpr hx
            simp only [List.mem_cons]
            rintro (rfl | hxr)
            · exact hi hxP
            · exact (isMem.1 x hxr).2 hxP
        · intro p hp hcond q hpq hqn hqcond
          rw [hheads] at hcond hqcond
          rcases Nat.lt_succ_iff_lt_or_eq.mp hp with hp | hp2
          · have hcond2 : p ∉ P ∨ p ∈ headsOf G := by
              rcases hcond with hc | hc
              · left
                intro hpP
                exact hc (by simp [isProc p, hpP])
              · rcases List.mem_append.mp hc with hc | hc
                · exact Or.inr hc
                · simp only [List.mem_singleton] at hc
                  omega
            have hqcond2 : q ∉ P ∨ q ∈ headsOf G := by
              rcases hqcond with hc | hc
              · left
                intro hqP
                exact hc (by simp [isProc q, hqP])
              · rcases List.mem_append.mp hc with hc | hc
                · exact Or.inr hc
                · simp only [List.mem_singleton] at hc
                  subst hc
                  exact Or.inl hi
            exact inv.past p hp hcond2 q hpq hqn hqcond2
          · subst hp2
            have hqr2 : q ∉ r.2 := by
              rcases hqcond with hc | hc
              · intro hq2
                exact hc (by simp [hq2])
              · rcases List.mem_append.mp hc with hc | hc
                · exact absurd (headsOf_lt inv q hc) (by omega)
                · simp only [List.mem_singleton] at hc
                  omega
            have hqjs : q ∈ List.range' (p + 1) (E.length - (p + 1)) := by
              rw [List.mem_range'_1]
              omega
            exact innerScan_false (getE E p) E _ P q hqjs hqr2

/-- The invariant holds of the final state of `find_duplicates`. -/
theorem find_duplicates_inv (E : List EventCreate) :
    FDInv E E.length (find_duplicates E)
      (fdLoop E (List.range E.length) ([], [])).2 := by
  have h0 : FDInv E 0 [] [] := by
    refine ⟨by simp, by simp [headsOf], by simp, by simp, ?_⟩
    intro p hp
    omega
  have h1 := fdLoop_inv E E.length 0 [] [] (by omega) h0
  unfold find_duplicates
  rw [List.range_eq_range']
  exact h1

theorem getE_eq (X : List EventCreate) (i : Nat) (h : i < X.length) :
    getE X i = X[i] := by
  unfold getE
  rw [List.getD_eq_getElem?_getD, List.getElem?_eq_getElem h]
  rfl

theorem map_getE_range (X : List EventCreate) :
    (List.range X.length).map (getE X) = X := by
  apply List.ext_getElem
  · simp
  · intro i h1 h2
    simp only [List.getElem_map, List.getElem_range]
    exact getE_eq X i h2

theorem flatten_bound {E : List EventCreate} {G : List (List Nat)}
    {P : List Nat} (inv : FDInv E E.length G P) :
    ∀ x ∈ G.flatten, x < E.length := by
  intro x hx
  rw [List.mem_flatten] at hx
  obtain ⟨g, hg, hxg⟩ := hx
  obtain ⟨a, ms, rfl, _, ha, hms⟩ := inv.groups_wf g hg
  rcases List.mem_cons.mp hxg with rfl | hxm
  · omega
  · exact (hms x hxm).2

theorem group_len_two {E : List EventCreate} {i0 : Nat} {G : List (List Nat)}
    {P : List Nat} (inv : FDInv E i0 G P) :
    ∀ g ∈ G, 2 ≤ g.length := by
  intro g hg
  obtain ⟨a, ms, rfl, hne, _, _⟩ := inv.groups_wf g hg
  cases ms with
  | nil => exact absurd rfl hne
  | cons m ms => simp only [List.length_cons]; omega

theorem sum_ge_two_mul (G : List (List Nat)) (h : ∀ g ∈ G, 2 ≤ g.length) :
    2 * G.length ≤ (G.map List.length).sum := by
  induction G with
  | nil => simp
  | cons g gs ih =>
    simp only [List.map_cons, List.sum_cons, List.length_cons]
    have h1 := h g (by simp)
    have h2 := ih (fun g2 hg2 => h g2 (by simp [hg2]))
    omega

theorem nodup_length_le (F : List Nat) (n : Nat) (hnd : F.Nodup)
    (hb : ∀ x ∈ F, x < n) : F.length ≤ n := by
  have h1 : F.toFinset.card = F.length := List.toFinset_card_of_nodup hnd
  have h2 : F.toFinset ⊆ Finset.range n := by
    intro x hx
    rw [List.mem_toFinset] at hx
    rw [Finset.mem_range]
    exact hb x hx
  have := Finset.card_le_card h2
  rw [Finset.card_range] at this
  omega

theorem filter_not_mem_length (F : List Nat) (n : Nat) (hnd : F.Nodup)
    (hb : ∀ x ∈ F, x < n) :
    ((List.range n).filter (fun i => decide (i ∉ F))).length = n - F.length := by
  have hsplit : ((List.range n).filter (fun i => decide (i ∈ F))).length +
      ((List.range n).filter (fun i => decide (i ∉ F))).length = n := by
    have h3 := List.length_eq_countP_add_countP (fun i => decide (i ∈ F))
      (l := List.range n)
    rw [List.length_range] at h3
    rw [← List.countP_eq_length_filter, ← List.countP_eq_length_filter]
    have hcongr : List.countP (fun a => decide ¬(decide (a ∈ F) = true))
        (List.range n) = List.countP (fun i => decide (i ∉ F)) (List.range n) := by
      apply List.countP_congr
      intro a _
      simp
    omega
  have hmem : ((List.range n).filter (fun i => decide (i ∈ F))).length = F.length := by
    have hnd2 : ((List.range n).filter (fun i => decide (i ∈ F))).Nodup :=
      (List.nodup_range n).filter _
    have hcard1 := List.toFinset_card_of_nodup hnd2
    have hcard2 := List.toFinset_card_of_nodup hnd
    have hset : ((List.range n).filter (fun i => decide (i ∈ F))).toFinset =
        F.toFinset := by
      ext x
      simp only [List.mem_toFinset, List.mem_filter, List.mem_range,
        decide_eq_true_eq]
      exact ⟨fun h => h.2, fun h => ⟨hb x h, h⟩⟩
    rw [← hcard1, ← hcard2, hset]
  omega

theorem innerScan_all_false (x : EventCreate) (E : List EventCreate) :
    ∀ (js P : List Nat), (∀ j ∈ js, are_duplicates x (getE E j) = false) →
      innerScan x E js P = ([], P) := by
  intro js
  induction js with
  | nil => intro P _; rfl
  | cons j js ih =>
    intro P h
    by_cases hj : j ∈ P
    · rw [innerScan_cons_skip x E j js P hj]
      exact ih P (fun j2 hj2 => h j2 (by simp [hj2]))
    · rw [innerScan_cons_nodup x E j js P hj (h j (by simp))]
      exact ih P (fun j2 hj2 => h j2 (by simp [hj2]))

theorem fdLoop_no_groups (E : List EventCreate)
    (h : ∀ i j, i < j → j < E.length →
      are_duplicates (getE E i) (getE E j) = false) :
    ∀ (k i0 : Nat) (G : List (List Nat)), i0 + k = E.length →
      fdLoop E (List.range' i0 k) (G, []) = (G, []) := by
  intro k
  induction k with
  | zero => intro i0 G _; rfl
  | succ k ih =>
    intro i0 G hik
    rw [List.range'_succ]
    have hall : ∀ j ∈ List.range' (i0 + 1) (E.length - (i0 + 1)),
        are_duplicates (getE E i0) (getE E j) = false := by
      intro j hj
      rw [List.mem_range'_1] at hj
      exact h i0 j (by omega) (by omega)
    have hscan := innerScan_all_false (getE E i0) E
      (List.range' (i0 + 1) (E.length - (i0 + 1))) [] hall
    rw [fdLoop_cons_none E i0 _ G [] (by simp) (by rw [hscan])]
    rw [hscan]
    exact ih (i0 + 1) G (by omega)

theorem dedup_eq_self_of_no_groups (X : List EventCreate)
    (hG : find_duplicates X = []) : deduplicate_events X = X := by
  unfold deduplicate_events
  by_cases hX : X.isEmpty
  · rw [if_pos hX]
    exact (List.isEmpty_iff.mp hX).symm
  · rw [if_neg hX, hG]
    simp only [List.map_nil, List.flatten_nil, List.nil_append]
    have : ((List.range X.length).filter
        (fun i => decide (i ∉ ([] : List Nat)))) = List.range X.length := by
      apply List.filter_eq_self.mpr
      intro a _
      simp
    rw [this, map_getE_range]

theorem dedup_length_formula (X : List EventCreate) (hX : ¬ X.isEmpty) :
    (deduplicate_events X).length =
      (find_duplicates X).length +
        (X.length - (find_duplicates X).flatten.length) := by
  unfold deduplicate_events
  rw [if_neg hX]
  rw [List.length_append, List.length_map, List.length_map]
  congr 1
  exact filter_not_mem_length _ _ (find_duplicates_inv X).flat_nodup
    (flatten_bound (find_duplicates_inv X))

/-- Claim C2 (amended): the deduplicated list is never longer than the
input, and has the input's size exactly when no pair of candidates in
input order — each candidate tested against every later one, the only
direction the code ever tests — satisfies `are_duplicates`.  The
unordered reading of "no two candidates satisfy areDuplicates" is false
on the code, because difflib's ratio is order-sensitive: a pair can fail
the duplicate test in input order yet pass it reversed without changing
the output size. -/
theorem deduplicate_events_length (X : List EventCreate) :
    (deduplicate_events X).length ≤ X.length ∧
      ((deduplicate_events X).length = X.length ↔
        List.Pairwise (fun a b => are_duplicates a b = false) X) := by
  by_cases hX : X.isEmpty
  · have : X = [] := List.isEmpty_iff.mp hX
    subst this
    simp [deduplicate_events]
  · have inv := find_duplicates_inv X
    have hform := dedup_length_formula X hX
    have hsum : (find_duplicates X).flatten.length =
        ((find_duplicates X).map List.length).sum := by
      simp
    have h2G := sum_ge_two_mul _ (group_len_two inv)
    have hFn := nodup_length_le _ X.length inv.flat_nodup (flatten_bound inv)
    refine ⟨by omega, ?_, ?_⟩
    · intro heq
      have hG : find_duplicates X = [] := by
        have : (find_duplicates X).length = 0 := by omega
        exact List.length_eq_zero.mp this
      rw [List.pairwise_iff_getElem]
      intro i j h1 h2 hij
      have hcondi : i ∉ (fdLoop X (List.range X.length) ([], [])).2 ∨
          i ∈ headsOf (find_duplicates X) := by
        left
        intro hiP
        rw [inv.proc_eq] at hiP
        rw [hG] at hiP
        simp at hiP
      have hcondj : j ∉ (fdLoop X (List.range X.length) ([], [])).2 ∨
          j ∈ headsOf (find_duplicates X) := by
        left
        intro hjP
        rw [inv.proc_eq] at hjP
        rw [hG] at hjP
        simp at hjP
      have hfalse := inv.past i (by omega) hcondi j hij (by omega) hcondj
      rw [getE_eq X i (by omega), getE_eq X j (by omega)] at hfalse
      exact hfalse
    · intro hpw
      have hall : ∀ i j, i < j → j < X.length →
          are_duplicates (getE X i) (getE X j) = false := by
        intro i j hij hj
        rw [getE_eq X i (by omega), getE_eq X j hj]
        exact List.pairwise_iff_getElem.mp hpw i j (by omega) hj hij
      have hG : find_duplicates X = [] := by
        unfold find_duplicates
        rw [List.range_eq_range']
        rw [fdLoop_no_groups X hall X.length 0 [] (by omega)]
      rw [dedup_eq_self_of_no_groups X hG]

/-- The fields of an event that `are_duplicates` can consult, as preserved
by merging: the merge result keeps the base's title and start time, and
keeps the base's venue name whenever the base has a truthy one. -/
def mergeLike (a m : EventCreate) : Prop :=
  m.title = a.title ∧ m.start_datetime = a.start_datetime ∧
    (truthyStr a.venue_name = true → m.venue_name = a.venue_name)

theorem mergeLike_refl (a : EventCreate) : mergeLike a a := ⟨rfl, rfl, fun _ => rfl⟩

theorem mergeLike_mergeFold (a : EventCreate) (rest : List EventCreate) :
    mergeLike a (mergeFold a rest) := by
  refine ⟨mergeFold_title a rest, mergeFold_start a rest, fun h => ?_⟩
  rw [mergeFold_venue]
  unfold fillFirstStr
  rw [if_pos h]

/-- Non-duplicacy transfers along merging: if a pair is not a duplicate
pair, replacing either side by an event that keeps its title, start time
and (truthy) venue name keeps it a non-duplicate pair. -/
theorem are_duplicates_false_mono {a b a2 b2 : EventCreate}
    (ha : mergeLike a a2) (hb : mergeLike b b2)
    (h : are_duplicates a b = false) : are_duplicates a2 b2 = false := by
  obtain ⟨hat, has, hav⟩ := ha
  obtain ⟨hbt, hbs, hbv⟩ := hb
  rw [← Bool.not_eq_true] at h ⊢
  rw [are_duplicates_correct] at h ⊢
  intro hsp
  apply h
  refine ⟨?_, ?_, ?_⟩
  · have h1 := hsp.1
    rw [hat, hbt] at h1
    exact h1
  · have h2 := hsp.2.1
    rw [has, hbs] at h2
    exact h2
  · intro hva hvb
    have e1 : a2.venue_name = a.venue_name :=
      hav ((carriesVenue_iff_truthy a).mp hva)
    have e2 : b2.venue_name = b.venue_name :=
      hbv ((carriesVenue_iff_truthy b).mp hvb)
    have hva2 : carriesVenue a2 := by
      rw [carriesVenue_iff_truthy, e1]
      exact (carriesVenue_iff_truthy a).mp hva
    have hvb2 : carriesVenue b2 := by
      rw [carriesVenue_iff_truthy, e2]
      exact (carriesVenue_iff_truthy b).mp hvb
    have h3 := hsp.2.2 hva2 hvb2
    rw [e1, e2] at h3
    exact h3

theorem pairwise_imp_mem {α : Type} {R S : α → α → Prop} :
    ∀ (l : List α), (∀ a b, a ∈ l → b ∈ l → R a b → S a b) →
      l.Pairwise R → l.Pairwise S := by
  intro l
  induction l with
  | nil => intro _ _; exact List.Pairwise.nil
  | cons x xs ih =>
    intro h hp
    rw [List.pairwise_cons] at hp ⊢
    exact ⟨fun b hb => h x b (by simp) (by simp [hb]) (hp.1 b hb),
      ih (fun a b ha hb => h a b (by simp [ha]) (by simp [hb])) hp.2⟩

theorem mergeGroup_cons (X : List EventCreate) (a : Nat) (ms : List Nat) :
    mergeGroup X (a :: ms) = mergeFold (getE X a) (ms.map (getE X)) := rfl

/-- After one pass of `deduplicate_events`, no ordered pair of surviving
records is a duplicate pair, provided `are_duplicates` is order-symmetric
between input candidates and first-pass outputs (difflib's ratio is not
symmetric in general, so this hypothesis is not free; see the C3
counterexample). -/
theorem dedup_pairwise (X : List EventCreate)
    (hsym : ∀ u v, u ∈ X → v ∈ deduplicate_events X →
      are_duplicates u v = are_duplicates v u) :
    List.Pairwise (fun a b => are_duplicates a b = false)
      (deduplicate_events X) := by
  by_cases hX : X.isEmpty
  · unfold deduplicate_events
    rw [if_pos hX]
    exact List.Pairwise.nil
  · have inv := find_duplicates_inv X
    have hdedup : deduplicate_events X =
        (find_duplicates X).map (mergeGroup X) ++
          ((List.range X.length).filter
            (fun i => decide (i ∉ (find_duplicates X).flatten))).map (getE X) := by
      unfold deduplicate_events
      rw [if_neg hX]
    have hmergemem : ∀ g ∈ find_duplicates X,
        mergeGroup X g ∈ deduplicate_events X := by
      intro g hg
      rw [hdedup]
      exact List.mem_append_left _ (List.mem_map_of_mem _ hg)
    have hgetmem : ∀ s, s < X.length → getE X s ∈ X := by
      intro s hs
      rw [getE_eq X s hs]
      exact List.getElem_mem hs
    rw [hdedup, List.pairwise_append]
    refine ⟨?_, ?_, ?_⟩
    · rw [List.pairwise_map]
      have hanch : List.Pairwise (fun g h => g.headD 0 < h.headD 0)
          (find_duplicates X) := by
        have := inv.heads_sorted
        unfold headsOf at this
        rwa [List.pairwise_map] at this
      refine pairwise_imp_mem _ ?_ hanch
      intro g h hg hh hlt
      obtain ⟨a, ms, rfl, hne, han, hmem⟩ := inv.groups_wf g hg
      obtain ⟨a2, ms2, rfl, hne2, han2, hmem2⟩ := inv.groups_wf h hh
      simp only [List.headD_cons] at hlt
      have hheada : a ∈ headsOf (find_duplicates X) := by
        simp only [headsOf, List.mem_map]
        exact ⟨a :: ms, hg, rfl⟩
      have hheada2 : a2 ∈ headsOf (find_duplicates X) := by
        simp only [headsOf, List.mem_map]
        exact ⟨a2 :: ms2, hh, rfl⟩
      have hfalse := inv.past a han (Or.inr hheada) a2 hlt han2 (Or.inr hheada2)
      rw [mergeGroup_cons, mergeGroup_cons]
      exact are_duplicates_false_mono (mergeLike_mergeFold _ _)
        (mergeLike_mergeFold _ _) hfalse
    · rw [List.pairwise_map]
      have hrange : List.Pairwise (· < ·)
          ((List.range X.length).filter
            (fun i => decide (i ∉ (find_duplicates X).flatten))) :=
        (List.pairwise_lt_range X.length).filter _
      refine pairwise_imp_mem _ ?_ hrange
      intro s t hs ht hlt
      rw [List.mem_filter, List.mem_range] at hs ht
      have hsf : s ∉ (find_duplicates X).flatten := by
        have := hs.2
        simpa using this
      have htf : t ∉ (find_duplicates X).flatten := by
        have := ht.2
        simpa using this
      exact inv.past s hs.1 (Or.inl fun hsP => hsf ((inv.proc_eq s).mp hsP))
        t hlt ht.1 (Or.inl fun htP => htf ((inv.proc_eq t).mp htP))
    · intro u hu v hv
      rw [List.mem_map] at hu hv
      obtain ⟨g, hg, rfl⟩ := hu
      obtain ⟨s, hsmem, rfl⟩ := hv
      rw [List.mem_filter, List.mem_range] at hsmem
      have hsf : s ∉ (find_duplicates X).flatten := by
        have := hsmem.2
        simpa using this
      obtain ⟨a, ms, rfl, hne, han, hmem⟩ := inv.groups_wf g hg
      have hheada : a ∈ headsOf (find_duplicates X) := by
        simp only [headsOf, List.mem_map]
        exact ⟨a :: ms, hg, rfl⟩
      have hsa : s ≠ a := by
        intro h
        subst h
        exact hsf (heads_mem_flatten inv s hheada)
      rcases Nat.lt_or_ge a s with hlt | hge
      · have hfalse := inv.past a han (Or.inr hheada) s hlt hsmem.1
          (Or.inl fun hsP => hsf ((inv.proc_eq s).mp hsP))
        rw [mergeGroup_cons]
        exact are_duplicates_false_mono (mergeLike_mergeFold _ _)
          (mergeLike_refl _) hfalse
      · have hslt : s < a := by omega
        have hfalse := inv.past s hsmem.1
          (Or.inl fun hsP => hsf ((inv.proc_eq s).mp hsP)) a hslt han
          (Or.inr hheada)
        have hfalse2 : are_duplicates (getE X s) (mergeGroup X (a :: ms)) = false := by
          rw [mergeGroup_cons]
          exact are_duplicates_false_mono (mergeLike_refl _)
            (mergeLike_mergeFold _ _) hfalse
        rw [← hsym (getE X s) (mergeGroup X (a :: ms)) (hgetmem s hsmem.1)
          (hmergemem _ hg)]
        exact hfalse2

theorem dedup_fixed_of_pairwise (L : List EventCreate)
    (hpw : List.Pairwise (fun a b => are_duplicates a b = false) L) :
    deduplicate_events L = L := by
  have hall : ∀ i j, i < j → j < L.length →
      are_duplicates (getE L i) (getE L j) = false := by
    intro i j hij hj
    rw [getE_eq L i (by omega), getE_eq L j hj]
    exact List.pairwise_iff_getElem.mp hpw i j (by omega) hj hij
  have hG : find_duplicates L = [] := by
    unfold find_duplicates
    rw [List.range_eq_range']
    rw [fdLoop_no_groups L hall L.length 0 [] (by omega)]
  exact dedup_eq_self_of_no_groups L hG

/-- Claim C3 (amended): `deduplicate_events` is idempotent on every input
for which duplicate detection is order-symmetric between the input
candidates and the first pass's outputs.  The unrestricted claim fails
because difflib's similarity ratio depends on the order of its arguments
(see `deduplicate_events_not_idempotent`). -/
theorem deduplicate_events_idempotent (X : List EventCreate)
    (hsym : ∀ u v, u ∈ X → v ∈ deduplicate_events X →
      are_duplicates u v = are_duplicates v u) :
    deduplicate_events (deduplicate_events X) = deduplicate_events X :=
  dedup_fixed_of_pairwise _ (dedup_pairwise X hsym)

/-- Three candidates with identical titles and start times whose venue
names make the similarity ratio order-dependent: the ratio of `venueLo`
against `venueHi` is 10/60, while the ratio of `venueHi` against `venueLo`
is 42/60 = 0.7 (checked against CPython's difflib, which computes the same
two floats and accepts 0.7 as not below the threshold). -/
def venueLo : String := "abcdefghij9klmn#opqr$stuv%wxyz"

def venueHi : String := "fghij~klmn+opqr=stuv<wxyzabcde"

def evSingleton : EventCreate :=
  { title := "jazz night", description := "a jazz show", start_datetime := 0,
    venue_name := some venueLo,
    source_url := "u", source_name := "s" }

def evAnchor : EventCreate :=
  { title := "jazz night", description := "a jazz show", start_datetime := 0,
    venue_name := some venueHi,
    source_url := "u", source_name := "s" }

/-- Counterexample to claim C3 as stated: on this input the first pass
keeps two records (the anchor of the merged pair was never compared
against the earlier singleton with the arguments in the merged-first
order), and the second pass merges them, so a second pass changes the
result. -/
theorem deduplicate_events_not_idempotent :
    deduplicate_events (deduplicate_events [evSingleton, evAnchor, evAnchor]) ≠
      deduplicate_events [evSingleton, evAnchor, evAnchor] := by
  decide

/-- Counterexample to claim C2 as stated: with the unordered reading of
"no two distinct candidates satisfy are_duplicates", the equality
direction fails — on this two-candidate input the output size equals the
input size, yet the two (distinct) candidates do satisfy `are_duplicates`
when tested in the reversed order, because difflib's ratio is
order-sensitive.  Only pairs in input order govern the output size. -/
theorem deduplicate_events_length_counterexample :
    (deduplicate_events [evSingleton, evAnchor]).length =
      ([evSingleton, evAnchor] : List EventCreate).length ∧
      evAnchor ∈ ([evSingleton, evAnchor] : List EventCreate) ∧
      evSingleton ∈ ([evSingleton, evAnchor] : List EventCreate) ∧
      evAnchor ≠ evSingleton ∧
      are_duplicates evAnchor evSingleton = true := by
  decide

/-- Witness exercising the amended idempotence theorem at a concrete
input. -/
theorem deduplicate_events_idempotent_witness :
    deduplicate_events (deduplicate_events [evAnchor]) =
      deduplicate_events [evAnchor] := by
  refine deduplicate_events_idempotent [evAnchor] ?_
  intro u v hu hv
  have hded : deduplicate_events [evAnchor] = [evAnchor] := by decide
  rw [hded] at hv
  simp only [List.mem_singleton] at hu hv
  subst hu
  subst hv
  rfl

/-- Claim C4 (amended): merging a non-empty group takes the first member as
base and scans the rest in order; the description is replaced exactly when
the scanned one is strictly longer; venue name, street address, category,
contact email, contact phone, website URL and image URL fill
first-truthy-wins (Python truthiness: null and the empty string count as
absent); latitude and longitude move as a pair gated on the latitude being
truthy (null and 0.0 count as absent — this is where the original claim's
"empty/null" reading fails, see the counterexample); tag sets union; every
other field of the base is left unchanged, and the description never gets
shorter than the base's. -/
theorem merge_duplicates_policy (base : EventCreate) (rest : List EventCreate) :
    merge_duplicates (base :: rest) = Except.ok (mergeFold base rest) ∧
    (mergeFold base rest).title = base.title ∧
    (mergeFold base rest).start_datetime = base.start_datetime ∧
    (mergeFold base rest).end_datetime = base.end_datetime ∧
    (mergeFold base rest).all_day = base.all_day ∧
    (mergeFold base rest).city = base.city ∧
    (mergeFold base rest).state = base.state ∧
    (mergeFold base rest).zip_code = base.zip_code ∧
    (mergeFold base rest).age_restrictions = base.age_restrictions ∧
    (mergeFold base rest).cost = base.cost ∧
    (mergeFold base rest).registration_required = base.registration_required ∧
    (mergeFold base rest).source_url = base.source_url ∧
    (mergeFold base rest).source_name = base.source_name ∧
    (mergeFold base rest).recurring_pattern = base.recurring_pattern ∧
    (mergeFold base rest).family_friendly = base.family_friendly ∧
    (mergeFold base rest).description =
      descFold base.description (rest.map EventCreate.description) ∧
    base.description.length ≤ (mergeFold base rest).description.length ∧
    (mergeFold base rest).venue_name =
      fillFirstStr base.venue_name (rest.map EventCreate.venue_name) ∧
    (mergeFold base rest).street_address =
      fillFirstStr base.street_address (rest.map EventCreate.street_address) ∧
    ((mergeFold base rest).latitude, (mergeFold base rest).longitude) =
      pairFill (base.latitude, base.longitude)
        (rest.map fun e => (e.latitude, e.longitude)) ∧
    (mergeFold base rest).category =
      fillFirstCat base.category (rest.map EventCreate.category) ∧
    (mergeFold base rest).contact_email =
      fillFirstStr base.contact_email (rest.map EventCreate.contact_email) ∧
    (mergeFold base rest).contact_phone =
      fillFirstStr base.contact_phone (rest.map EventCreate.contact_phone) ∧
    (mergeFold base rest).website_url =
      fillFirstStr base.website_url (rest.map EventCreate.website_url) ∧
    (mergeFold base rest).image_url =
      fillFirstStr base.image_url (rest.map EventCreate.image_url) ∧
    (∀ t, t ∈ (mergeFold base rest).tags ↔
      t ∈ base.tags ∨ ∃ e ∈ rest, t ∈ e.tags) :=
  ⟨merge_duplicates_cons base rest, mergeFold_title base rest,
    mergeFold_start base rest, mergeFold_end base rest,
    mergeFold_all_day base rest, mergeFold_city base rest,
    mergeFold_state base rest, mergeFold_zip base rest,
    mergeFold_age base rest, mergeFold_cost base rest,
    mergeFold_reg base rest, mergeFold_source_url base rest,
    mergeFold_source_name base rest, mergeFold_recurring base rest,
    mergeFold_family base rest, mergeFold_description base rest,
    mergeFold_description_le base rest, mergeFold_venue base rest,
    mergeFold_street base rest, mergeFold_latlong base rest,
    mergeFold_category base rest, mergeFold_email base rest,
    mergeFold_phone base rest, mergeFold_website base rest,
    mergeFold_image base rest, mergeFold_tags base rest⟩

/-- Base event whose latitude is present but `0.0` (with a longitude). -/
def evZeroLat : EventCreate :=
  { title := "on the equator", description := "a field trip",
    start_datetime := 0, latitude := some 0, longitude := some 5,
    source_url := "u", source_name := "s" }

/-- Later group member carrying a different coordinate pair. -/
def evOtherLat : EventCreate :=
  { title := "on the equator", description := "a field trip",
    start_datetime := 0, latitude := some 1, longitude := some 6,
    source_url := "u", source_name := "s" }

/-- Counterexample to claim C4 as stated: the base's latitude is present
(non-null, `0.0`), yet the merge overwrites the latitude/longitude pair,
because the code guards the fill with Python truthiness (`not
merged.latitude`), under which `0.0` counts as absent. -/
theorem merge_duplicates_lat_zero_counterexample :
    evZeroLat.latitude = some 0 ∧ evZeroLat.latitude ≠ none ∧
      merge_duplicates [evZeroLat, evOtherLat] =
        Except.ok (mergeFold evZeroLat [evOtherLat]) ∧
      (mergeFold evZeroLat [evOtherLat]).latitude = some 1 ∧
      (mergeFold evZeroLat [evOtherLat]).longitude = some 6 := by
  exact ⟨rfl, by simp [evZeroLat], merge_duplicates_cons _ _, by decide, by decide⟩

/-- Python whitespace for `str.strip()` and the regex class `\s`
(ASCII range: space, tab, newline, carriage return, vertical tab, form
feed). -/
def pyIsSpace (c : Char) : Bool :=
  decide (c.toNat = 32 ∨ c.toNat = 9 ∨ c.toNat = 10 ∨ c.toNat = 13 ∨
    c.toNat = 11 ∨ c.toNat = 12)

/-- Embedding of Python `str.strip()`: drop whitespace from both ends. -/
def pyStrip (s : String) : String :=
  ⟨((s.data.dropWhile pyIsSpace).reverse.dropWhile pyIsSpace).reverse⟩

/-- Count of non-whitespace characters, the measure used by the spec
sentence of claim C5 ("non-whitespace characters"). -/
def nonWsCount (s : String) : Nat :=
  (s.data.filter (fun c => ¬ pyIsSpace c)).length

/-- Embedding of the Python substring test `needle in hay`. -/
def containsSubstr (needle hay : String) : Bool :=
  (suffixesFrom 0 hay.data).any (fun p => needle.data.isPrefixOf p.2)

theorem char_toNat_ofNat (n : Nat) (h : n.isValidChar) :
    (Char.ofNat n).toNat = n := by
  unfold Char.ofNat
  rw [dif_pos h]
  unfold Char.ofNatAux Char.toNat
  simp only [UInt32.toNat]
  simp only [BitVec.toNat_ofNatLt]

/-- ASCII case folding never moves a character in or out of the
whitespace class. -/
theorem pyIsSpace_toLower (c : Char) :
    pyIsSpace (Char.toLower c) = pyIsSpace c := by
  unfold Char.toLower
  simp only []
  split_ifs with h
  · have hv : (c.toNat + 32).isValidChar := Or.inl (by omega)
    unfold pyIsSpace
    rw [char_toNat_ofNat (c.toNat + 32) hv]
    simp only [decide_eq_decide]
    omega
  · rfl

theorem pyStrip_lowerStr (s : String) :
    pyStrip (lowerStr s) = lowerStr (pyStrip s) := by
  unfold pyStrip lowerStr
  have hfun : (pyIsSpace ∘ Char.toLower) = pyIsSpace := funext pyIsSpace_toLower
  simp only [← List.map_reverse, List.dropWhile_map, hfun]

theorem pyStrip_lowerStr_length (s : String) :
    (pyStrip (lowerStr s)).data.length = (pyStrip s).data.length := by
  rw [pyStrip_lowerStr]
  unfold lowerStr
  simp

def month_abbrevs : List String :=
  ["jan", "feb", "mar", "apr", "may", "jun", "jul", "aug", "sep", "oct",
    "nov", "dec"]

def generic_words : List String :=
  ["event", "show", "performance", "image", "home", "calendar"]

def ui_text : List String :=
  ["jump to", "click here", "more info", "iframe", "please update"]

/-- Character class of the regex `[\d/\-\s:]` (ASCII digits, slash,
hyphen, whitespace, colon). -/
def digitsDateClass (c : Char) : Bool :=
  c.isDigit || c = '/' || c = '-' || pyIsSpace c || c = ':'

/-- Embedding of the regex `^(jan|feb|...|dec)\d{1,2}$`: a three-letter
month abbreviation followed by one or two digits, nothing else. -/
def monthDayPattern (t : String) : Bool :=
  month_abbrevs.contains (⟨t.data.take 3⟩ : String) &&
    ((t.data.drop 3).length = 1 || (t.data.drop 3).length = 2) &&
    (t.data.drop 3).all (fun c => c.isDigit)

/-- Embedding of `EventValidator.is_low_quality_title` (validator.py:45):
case-fold and strip, then reject titles that are too short, all
digits/dates, a month-day abbreviation, a generic single word, or contain
UI/navigation fragments. -/
def is_low_quality_title (title : String) : Bool :=
  if (pyStrip (lowerStr title)).data.length < 3 then true
  else if (pyStrip (lowerStr title)).data ≠ [] ∧
      (pyStrip (lowerStr title)).data.all digitsDateClass then true
  else if monthDayPattern (pyStrip (lowerStr title)) then true
  else if generic_words.contains (pyStrip (lowerStr title)) then true
  else if ui_text.any (fun u => containsSubstr u (pyStrip (lowerStr title))) then true
  else false

/-- Embedding of `EventValidator.validate_event` (validator.py:13) with
the wall clock `datetime.now(EASTERN_TZ)` passed in as `now`.  The
`not event.start_datetime` check of the source is omitted: `start_datetime`
is a required datetime and Python datetime objects are always truthy, so
that branch is unreachable.  30 days = 2592000 s; 730 days = 63072000 s. -/
def validate_event (now : Int) (event : EventCreate) : Bool × Option String :=
  if event.title = "" ∨ (pyStrip event.title).data.length < 3 then
    (false, some "Title is too short")
  else if event.description = "" ∨ (pyStrip event.description).data.length < 10 then
    (false, some "Description is too short")
  else if event.start_datetime < now - 2592000 then
    (false, some "Event date is too far in the past")
  else if now + 63072000 < event.start_datetime then
    (false, some "Event date is too far in the future")
  else if is_low_quality_title event.title then
    (false, some "Title appears to be low quality")
  else (true, none)

theorem pyStrip_empty : pyStrip "" = "" := rfl

theorem validate_title_cond (e : EventCreate) :
    (e.title = "" ∨ (pyStrip e.title).data.length < 3) ↔
      (pyStrip e.title).data.length < 3 := by
  constructor
  · rintro (h | h)
    · rw [h, pyStrip_empty]
      decide
    · exact h
  · exact Or.inr

theorem validate_desc_cond (e : EventCreate) :
    (e.description = "" ∨ (pyStrip e.description).data.length < 10) ↔
      (pyStrip e.description).data.length < 10 := by
  constructor
  · rintro (h | h)
    · rw [h, pyStrip_empty]
      decide
    · exact h
  · exact Or.inr

/-- Claim C5 (amended): `validate_event` checks the title first and the
description second, each short-circuiting with its own reason, and the
length measure is the character count after trimming surrounding
whitespace (not the count of non-whitespace characters): titles shorter
than 3 and descriptions shorter than 10 trimmed characters are rejected,
and every accepted candidate satisfies both bounds. -/
theorem validate_event_length_checks (now : Int) (e : EventCreate) :
    ((pyStrip e.title).data.length < 3 →
      validate_event now e = (false, some "Title is too short")) ∧
    (3 ≤ (pyStrip e.title).data.length →
      (pyStrip e.description).data.length < 10 →
        validate_event now e = (false, some "Description is too short")) ∧
    ((validate_event now e).1 = true →
      3 ≤ (pyStrip e.title).data.length ∧
        10 ≤ (pyStrip e.description).data.length) := by
  refine ⟨?_, ?_, ?_⟩
  · intro h
    unfold validate_event
    rw [if_pos ((validate_title_cond e).mpr h)]
  · intro h1 h2
    unfold validate_event
    rw [if_neg, if_pos ((validate_desc_cond e).mpr h2)]
    rw [validate_title_cond]
    omega
  · intro hacc
    unfold validate_event at hacc
    split_ifs at hacc with h1 h2 h3 h4 h5
    rw [validate_title_cond] at h1
    rw [validate_desc_cond] at h2
    omega

/-- Witness exercising the amended length-check theorem: a one-character
title is rejected with the title reason. -/
def evTinyTitle : EventCreate :=
  { title := "x", description := "a perfectly fine description",
    start_datetime := 0, source_url := "u", source_name := "s" }

theorem validate_event_length_checks_witness :
    validate_event 0 evTinyTitle = (false, some "Title is too short") :=
  (validate_event_length_checks 0 evTinyTitle).1 (by decide)

/-- Candidate with two non-whitespace title characters that the validator
nevertheless accepts, because it measures the trimmed length (3). -/
def evSpacedTitle : EventCreate :=
  { title := "a b", description := "a perfectly fine description",
    start_datetime := 0, source_url := "u", source_name := "s" }

/-- Counterexample to claim C5 as stated: this candidate's title has fewer
than 3 non-whitespace characters, yet `validate_event` accepts it —
the code trims only surrounding whitespace (`len(title.strip())`), it does
not count non-whitespace characters. -/
theorem validate_event_nonws_counterexample :
    nonWsCount evSpacedTitle.title = 2 ∧
      validate_event 0 evSpacedTitle = (true, none) := by
  decide

/-- Claim C6 (amended): for every candidate that passes the title and
description length checks and whose title is not low-quality,
`validate_event` accepts exactly when the start time lies within
[now − 30 days, now + 730 days], where `now` is the metro region's local
civil time (the code compares naive civil date-times). -/
theorem validate_event_window (now : Int) (e : EventCreate)
    (ht : 3 ≤ (pyStrip e.title).data.length)
    (hd : 10 ≤ (pyStrip e.description).data.length)
    (hq : is_low_quality_title e.title = false) :
    ((validate_event now e).1 = true ↔
      now - 2592000 ≤ e.start_datetime ∧ e.start_datetime ≤ now + 63072000) := by
  unfold validate_event
  split_ifs with h1 h2 h3 h4 h5
  · rw [validate_title_cond] at h1
    omega
  · rw [validate_desc_cond] at h2
    omega
  · simp only [Bool.false_eq_true, false_iff, not_and, not_le]
    intro h
    omega
  · simp only [Bool.false_eq_true, false_iff, not_and, not_le]
    intro h
    omega
  · rw [hq] at h5
    simp at h5
  · simp only [true_iff]
    omega

/-- Candidate whose title, description and start time are all present and
whose start time is inside the validity window, but whose description is
shorter than 10 characters. -/
def evShortDesc : EventCreate :=
  { title := "Concert at Sanders", description := "short",
    start_datetime := 0, source_url := "u", source_name := "s" }

/-- Counterexample to claim C6 as stated: presence of title, description
and start time plus a non-low-quality title do not make acceptance
equivalent to the date window — this candidate meets all of that and lies
inside the window, yet is rejected (description too short). -/
theorem validate_event_window_counterexample :
    evShortDesc.title ≠ "" ∧ evShortDesc.description ≠ "" ∧
      is_low_quality_title evShortDesc.title = false ∧
      (0 : Int) - 2592000 ≤ evShortDesc.start_datetime ∧
      evShortDesc.start_datetime ≤ (0 : Int) + 63072000 ∧
      (validate_event 0 evShortDesc).1 = false := by
  decide

/-- Fully valid candidate used to exercise the window theorem. -/
def evValid : EventCreate :=
  { title := "Concert at Sanders", description := "an evening of chamber music",
    start_datetime := 0, source_url := "u", source_name := "s" }

/-- Witness exercising the amended window theorem at a concrete input. -/
theorem validate_event_window_witness :
    (validate_event 0 evValid).1 = true ↔
      (0 : Int) - 2592000 ≤ evValid.start_datetime ∧
        evValid.start_datetime ≤ (0 : Int) + 63072000 :=
  validate_event_window 0 evValid (by decide) (by decide) (by decide)

/-- Restatement of claim C7's low-quality conditions over the case-folded,
trimmed title, with the character class amended from
"digits/punctuation/slashes/colons" to the class the code actually tests:
digits, whitespace, hyphens, slashes and colons. -/
def low_quality_title_spec (t : String) : Prop :=
  (t.data ≠ [] ∧ t.data.all digitsDateClass = true) ∨
  monthDayPattern t = true ∨
  t ∈ generic_words ∨
  (∃ u ∈ ui_text, containsSubstr u t = true)

theorem is_low_quality_title_iff (title : String)
    (hlen : 3 ≤ (pyStrip (lowerStr title)).data.length) :
    (is_low_quality_title title = true ↔
      low_quality_title_spec (pyStrip (lowerStr title))) := by
  unfold is_low_quality_title low_quality_title_spec
  rw [if_neg (by omega)]
  split_ifs with h2 h3 h4 h5
  · simp only [true_iff]
    exact Or.inl h2
  · simp only [true_iff]
    exact Or.inr (Or.inl h3)
  · simp only [true_iff]
    refine Or.inr (Or.inr (Or.inl ?_))
    simpa using h4
  · simp only [true_iff]
    refine Or.inr (Or.inr (Or.inr ?_))
    simpa using h5
  · simp only [Bool.false_eq_true, false_iff]
    rintro (h | h | h | h)
    · exact h2 h
    · exact h3 h
    · exact h4 (by simpa using h)
    · exact h5 (by simpa using h)

/-- Claim C7 (amended): for candidates that pass the length and
date-window checks, `validate_event` rejects with the low-quality-title
reason exactly when the case-folded trimmed title is entirely made of
digits, whitespace, hyphens, slashes and colons, or matches the
month-abbreviation-plus-day pattern, or is one of the generic words, or
contains one of the UI/navigation fragments.  (The original claim's
"entirely digits/punctuation/slashes/colons" is wrong in both directions:
"..." is all punctuation but accepted, "1 2" contains whitespace outside
the claimed class but rejected.) -/
theorem validate_event_low_quality_iff (now : Int) (e : EventCreate)
    (ht : 3 ≤ (pyStrip e.title).data.length)
    (hd : 10 ≤ (pyStrip e.description).data.length)
    (hp : now - 2592000 ≤ e.start_datetime)
    (hf : e.start_datetime ≤ now + 63072000) :
    (validate_event now e = (false, some "Title appears to be low quality") ↔
      low_quality_title_spec (pyStrip (lowerStr e.title))) := by
  have hlen : 3 ≤ (pyStrip (lowerStr e.title)).data.length := by
    rw [pyStrip_lowerStr_length]
    exact ht
  unfold validate_event
  split_ifs with h1 h2 h3 h4 h5
  · rw [validate_title_cond] at h1
    omega
  · rw [validate_desc_cond] at h2
    omega
  · omega
  · omega
  · rw [← is_low_quality_title_iff e.title hlen]
    exact ⟨fun _ => h5, fun _ => rfl⟩
  · rw [← is_low_quality_title_iff e.title hlen]
    constructor
    · intro h
      exact absurd (congrArg Prod.fst h) (by simp)
    · intro h
      exact absurd h h5

/-- Title made only of punctuation that the code accepts. -/
def evDotsTitle : EventCreate :=
  { title := "...", description := "a perfectly fine description",
    start_datetime := 0, source_url := "u", source_name := "s" }

/-- Counterexample to claim C7 as stated: "..." is entirely punctuation,
so the claim requires rejection for low title quality, but the code's
character class `[\d/\-\s:]` does not contain '.', and the candidate is
accepted outright. -/
theorem low_quality_title_counterexample :
    (∀ c ∈ evDotsTitle.title.data, c = '.') ∧
      validate_event 0 evDotsTitle = (true, none) := by
  decide

/-- Witness exercising the amended low-quality theorem at the spec's own
example "Nov12". -/
def evNov12 : EventCreate :=
  { title := "Nov12", description := "a perfectly fine description",
    start_datetime := 0, source_url := "u", source_name := "s" }

theorem validate_event_low_quality_witness :
    validate_event 0 evNov12 = (false, some "Title appears to be low quality") :=
  (validate_event_low_quality_iff 0 evNov12 (by decide) (by decide)
    (by decide) (by decide)).mpr (Or.inr (Or.inl (by decide)))

/-- Word characters for the regex `\b` boundary (ASCII `[A-Za-z0-9_]`;
Python's `\w` is Unicode-aware, but every keyword below is ASCII). -/
def isWordChar (c : Char) : Bool := c.isAlphanum || c = '_'

def boundaryOk : Option Char → Bool
  | none => true
  | some c => ¬ isWordChar c

/-- Scan for an occurrence of `w` preceded and followed by a word
boundary, tracking the previous character. -/
def wordOccursAux (w : List Char) : Option Char → List Char → Bool
  | prev, [] => boundaryOk prev && w.isPrefixOf ([] : List Char)
  | prev, c :: rest =>
    (boundaryOk prev && w.isPrefixOf (c :: rest) &&
      boundaryOk ((c :: rest).drop w.length).head?) ||
    wordOccursAux w (some c) rest

/-- Embedding of `re.search(r'\b<w>\b', txt)` for a literal word `w`. -/
def wordOccurs (w txt : String) : Bool := wordOccursAux w.data none txt.data

/-- Lowercase ASCII letter, the class `[a-z]` of the entity regex. -/
def isLowerAlpha (c : Char) : Bool := decide (97 ≤ c.toNat ∧ c.toNat ≤ 122)

/-- Fuel-indexed embedding of `re.sub(r'&[a-z]+;', ' ', text)`: leftmost
non-overlapping matches of an ampersand, a non-empty lowercase run and a
semicolon are replaced by one space.  Every step consumes at least one
character, so `length + 1` fuel (as supplied by `removeEntities`) is never
exhausted. -/
def removeEntitiesFuel : Nat → List Char → List Char
  | 0, _ => []
  | _, [] => []
  | fuel + 1, c :: rest =>
    if c = '&' ∧ rest.takeWhile isLowerAlpha ≠ [] ∧
        (rest.drop (rest.takeWhile isLowerAlpha).length).head? = some ';' then
      ' ' :: removeEntitiesFuel fuel
        ((rest.drop (rest.takeWhile isLowerAlpha).length).drop 1)
    else c :: removeEntitiesFuel fuel rest

def removeEntities (l : List Char) : List Char :=
  removeEntitiesFuel (l.length + 1) l

/-- Terminal punctuation class `[!?.]` of the collapse regex. -/
def isTermPunct (c : Char) : Bool := c = '!' || c = '?' || c = '.'

/-- Fuel-indexed embedding of `re.sub(r'([!?.]){2,}', r'\1', text)`: a run
of two or more terminal punctuation marks collapses to the run's last
mark (the last repetition is what group 1 holds).  Every step consumes at
least one character, so `length + 1` fuel is never exhausted. -/
def collapsePunctFuel : Nat → List Char → List Char
  | 0, _ => []
  | _, [] => []
  | fuel + 1, c :: rest =>
    if isTermPunct c ∧ rest.takeWhile isTermPunct ≠ [] then
      (rest.takeWhile isTermPunct).getLastD c ::
        collapsePunctFuel fuel (rest.drop (rest.takeWhile isTermPunct).length)
    else c :: collapsePunctFuel fuel rest

def collapsePunct (l : List Char) : List Char :=
  collapsePunctFuel (l.length + 1) l

/-- Words of a string under Python `str.split()` (split on whitespace
runs, no empty words), accumulator-reversed. -/
def splitWsAux : List Char → List Char → List (List Char)
  | cur, [] => if cur = [] then [] else [cur.reverse]
  | cur, c :: rest =>
    if pyIsSpace c then
      if cur = [] then splitWsAux [] rest
      else cur.reverse :: splitWsAux [] rest
    else splitWsAux (c :: cur) rest

/-- Embedding of `' '.join(text.split())`. -/
def joinSpace : List (List Char) → List Char
  | [] => []
  | [w] => w
  | w :: ws => w ++ ' ' :: joinSpace ws

/-- Embedding of `EventValidator.clean_text` (validator.py:236): collapse
whitespace runs, strip bare HTML entity references, collapse repeated
terminal punctuation, trim. -/
def clean_text (text : String) : String :=
  if text = "" then ""
  else pyStrip ⟨collapsePunct (removeEntities (joinSpace (splitWsAux [] text.data)))⟩

def explicit_family : List String :=
  ["all ages", "all-ages", "family friendly", "family-friendly",
    "family event", "family program", "family fun", "family day"]

/-- The word-boundary keyword regexes of `is_family_friendly`, expanded
into the finite word lists they match. -/
def family_word_keywords : List String :=
  ["kid", "kids", "children", "child", "baby", "babies", "toddler",
    "toddlers", "infant", "infants", "youth", "teen", "teens", "teenager",
    "puppet", "puppets", "pajama", "pajamas", "caregiver"]

def phrase_keywords : List String :=
  ["story time", "storytime", "story hour", "lapsit", "lap sit",
    "family program", "family event", "family fun", "family day",
    "puppet show",
    "all ages", "all-ages", "family friendly", "family-friendly",
    "ages 0", "ages 1", "ages 2", "ages 3", "ages 4", "ages 5",
    "ages 6", "ages 7", "ages 8", "ages 9", "ages 10",
    "ages 0-", "ages 1-", "ages 2-", "ages 3-", "ages 4-", "ages 5-",
    "arts and crafts",
    "sing along", "sing-along", "singalong",
    "read aloud", "read-aloud",
    "playgroup", "play group", "playdate", "play date",
    "pj storytime",
    "preschool", "pre-school",
    "kindergarten",
    "young readers", "young reader",
    "parent and child", "parent & child"]

/-- Search text `f"{title} {description}".lower()`. -/
def searchText (e : EventCreate) : String :=
  lowerStr (e.title ++ " " ++ e.description)

/-- Hour of a naive civil date-time in the integer-seconds encoding. -/
def hourOf (t : Int) : Int := (t % 86400) / 3600

/-- Embedding of `EventValidator.is_family_friendly` (validator.py:168).
The guard `event.start_datetime and ...` of the source is only the hour
test: the field is a required datetime and Python datetimes are always
truthy. -/
def is_family_friendly (event : EventCreate) : Bool :=
  if 20 ≤ hourOf event.start_datetime ∧
      ¬ (explicit_family.any (fun p => containsSubstr p (searchText event))) then
    false
  else if family_word_keywords.any (fun w => wordOccurs w (searchText event)) then
    true
  else if phrase_keywords.any (fun p => containsSubstr p (searchText event)) then
    true
  else false

def excluded_venues : List String :=
  ["library", "branch", "museum", "theater", "theatre", "school", "church"]

def food_drink_venue_names : List String :=
  ["lamplighter", "portico brewing", "aeronaut", "night shift",
    "idle hands", "lamplighter cx", "lamplighter brewing"]

/-- The word-boundary venue-type regexes, as the literal words they
match. -/
def food_drink_venue_types : List String :=
  ["brewing", "brewery", "brewpub", "taproom", "tap room", "beer garden",
    "beer hall", "winery", "wine bar", "distillery", "restaurant", "cafe",
    "café", "bistro", "diner", "bar", "pub", "tavern", "lounge", "grill",
    "eatery", "coffeehouse", "coffee house", "bakery", "patisserie"]

def food_drink_keywords : List String :=
  ["beer", "wine tasting", "cocktail", "cocktails", "spirits", "whiskey",
    "bourbon", "happy hour", "beer tasting", "craft beer", "ipa", "lager",
    "stout", "cider", "mead", "food truck", "foodtruck", "pop-up dinner",
    "popup dinner", "cooking class", "culinary", "farmers market",
    "farmer\x27s market", "food festival"]

/-- Embedding of `EventValidator.is_food_and_drink_event`
(validator.py:108): the exclusion list short-circuits first, then known
establishment names (substring), venue-type vocabulary (word boundary),
and title/description keywords (substring). -/
def is_food_and_drink_event (event : EventCreate) : Bool :=
  if excluded_venues.any
      (fun x => containsSubstr x (lowerStr (event.venue_name.getD ""))) then false
  else if food_drink_venue_names.any (fun v =>
      containsSubstr v (lowerStr (event.venue_name.getD "")) ||
      containsSubstr v (lowerStr event.source_name)) then true
  else if food_drink_venue_types.any (fun v =>
      wordOccurs v (lowerStr (event.venue_name.getD "")) ||
      wordOccurs v (lowerStr event.source_name)) then true
  else if food_drink_keywords.any
      (fun k => containsSubstr k (searchText event)) then true
  else false

/-- The cleaning/defaulting/flag part of `EventValidator.clean_and_enhance`
(validator.py:75), everything before the food/drink category override. -/
def preEnhance (event : EventCreate) : EventCreate :=
  let e1 := { event with title := clean_text event.title }
  let e2 := { e1 with description := clean_text e1.description }
  let e3 := if truthyStr e2.venue_name then
      { e2 with venue_name := some (clean_text (e2.venue_name.getD "")) } else e2
  let e4 := if truthyStr e3.street_address then
      { e3 with street_address := some (clean_text (e3.street_address.getD "")) }
    else e3
  let e5 := if ¬ truthyStr e4.city then { e4 with city := some "Cambridge" } else e4
  let e6 := if ¬ truthyStr e5.state then { e5 with state := some "MA" } else e5
  { e6 with family_friendly := is_family_friendly e6 }

/-- Embedding of `EventValidator.clean_and_enhance` (validator.py:75). -/
def clean_and_enhance (event : EventCreate) : EventCreate :=
  if is_food_and_drink_event (preEnhance event) then
    { preEnhance event with category := some EventCategory.food_drink }
  else preEnhance event

/-- Claim C8: an event starting at 20:00 or later (local 24-hour clock) is
never marked family-friendly unless its case-folded title+description text
contains one of the explicit-inclusion phrases — generic keywords such as
a word-boundary "kids" cannot make an evening event family-friendly on
their own. -/
theorem evening_requires_explicit (e : EventCreate)
    (hh : 20 ≤ hourOf e.start_datetime)
    (hx : explicit_family.any (fun p => containsSubstr p (searchText e)) = false) :
    is_family_friendly e = false := by
  unfold is_family_friendly
  rw [if_pos ⟨hh, by rw [hx]; simp⟩]

/-- Spec example D: starts 21:00, the word "kids" in the title, no
explicit-inclusion phrase. -/
def evLateNight : EventCreate :=
  { title := "Late Night Jazz for Kids at Heart",
    description := "An adults jazz set, nostalgic vibes.",
    start_datetime := 75600, source_url := "u", source_name := "s" }

/-- Witness: example D is not family-friendly, despite the word-boundary
match on "kids". -/
theorem evening_requires_explicit_witness :
    is_family_friendly evLateNight = false ∧
      wordOccurs "kids" (searchText evLateNight) = true := by
  refine ⟨evening_requires_explicit evLateNight (by decide) (by decide), ?_⟩
  decide

theorem preEnhance_category (e : EventCreate) :
    (preEnhance e).category = e.category := by
  unfold preEnhance
  simp only [apply_ite EventCreate.category, ite_self]

/-- Claim C9 (amended): a venue name containing one of the excluded
substrings (case-insensitively) makes `is_food_and_drink_event` return
false, whatever the known-establishment, venue-type or keyword signals
say; and when the venue name still contains an excluded substring after
text cleaning, `clean_and_enhance` leaves the category unchanged.  (The
cleaning proviso is needed: cleaning can destroy the substring, see the
counterexample.) -/
theorem excluded_venue_no_override (e : EventCreate) :
    ((∃ x ∈ excluded_venues,
        containsSubstr x (lowerStr (e.venue_name.getD "")) = true) →
      is_food_and_drink_event e = false) ∧
    ((∃ x ∈ excluded_venues,
        containsSubstr x (lowerStr ((preEnhance e).venue_name.getD "")) = true) →
      (clean_and_enhance e).category = e.category) := by
  have hgen : ∀ ev : EventCreate,
      (∃ x ∈ excluded_venues,
        containsSubstr x (lowerStr (ev.venue_name.getD "")) = true) →
      is_food_and_drink_event ev = false := by
    intro ev hx
    unfold is_food_and_drink_event
    rw [if_pos (List.any_eq_true.mpr hx)]
  refine ⟨hgen e, ?_⟩
  intro hx
  have h1 : is_food_and_drink_event (preEnhance e) = false := hgen (preEnhance e) hx
  unfold clean_and_enhance
  rw [h1]
  simp only [Bool.false_eq_true, if_false]
  exact preEnhance_category e

/-- Candidate whose raw venue name contains "library" only inside an HTML
entity reference, which text cleaning strips. -/
def evEntityVenue : EventCreate :=
  { title := "tasting", description := "come taste things here",
    start_datetime := 0, venue_name := some "&library; bar",
    source_url := "u", source_name := "s" }

/-- Counterexample to claim C9 as stated: the raw venue name contains the
excluded substring "library", yet `clean_and_enhance` still forces the
category to food-and-drink — cleaning turns the venue into "bar" before
the override runs. -/
theorem excluded_venue_override_counterexample :
    containsSubstr "library" (lowerStr (evEntityVenue.venue_name.getD "")) = true ∧
      evEntityVenue.category = none ∧
      (clean_and_enhance evEntityVenue).category = some EventCategory.food_drink := by
  decide

/-- Candidate whose venue name keeps "library" through cleaning. -/
def evLibraryBar : EventCreate :=
  { title := "beer tasting", description := "an evening of craft beer",
    start_datetime := 0, venue_name := some "library bar",
    source_url := "u", source_name := "s" }

/-- Witness exercising both halves of the amended C9 theorem at a venue
that would otherwise match the venue-type vocabulary ("bar") and the
keyword list ("beer"). -/
theorem excluded_venue_no_override_witness :
    is_food_and_drink_event evLibraryBar = false ∧
      (clean_and_enhance evLibraryBar).category = evLibraryBar.category :=
  ⟨(excluded_venue_no_override evLibraryBar).1 ⟨"library", by decide, by decide⟩,
    (excluded_venue_no_override evLibraryBar).2 ⟨"library", by decide, by decide⟩⟩

end CambridgeEvents
